import Mathlib

/-!
# UnrealForge: force, torque and threshold actors

A shallow embedding of the three per-frame update routines of the repository

* `AAcceleratedForceApplier::ApplyPhysicsForce` (Physics/Acceleration),
* `ATorqueApplier::ApplyTorque` (Physics/Torque),
* `AAcceleratingTutorialThreshold::Tick` / `UpdatePhase` (AcceleratingThreshold),

together with the properties stated about them.

Conventions of the embedding.

* In the first embedding `float` is read as exact rational arithmetic (`ℚ`), without
  rounding, NaN or infinities; it carries the properties that do not depend on rounding.
  A second embedding, `Binary32`, repeats the same code with IEEE 754 binary32 values
  and is used where rounding, overflow or NaN decides the outcome.  `FloorToInt` returns
  an `int32`.
* The physics target is not modelled.  A step returns the new actor state together with
  the call it makes on `TargetComponent` (`AddForce`, `AddImpulse`, ...), if any.
  `ApplyPhysicsForce` / `ApplyTorque` are only reached from `Tick` when the target exists
  and simulates physics, so the null guard is outside the embedded functions.
* The engine helpers used by the code (`FMath::Clamp`, `FVector::GetSafeNormal`,
  `FMath::FInterpTo`, `FVector::DotProduct`) are written out from their engine
  definitions.  The reciprocal square root used by `GetSafeNormal` is irrational in
  general and is taken as a parameter `invSqrt`.
-/

namespace UnrealForge

/-! ## Engine helpers -/

/-- The engine constant `SMALL_NUMBER` (`1.e-8f`). -/
def SMALL_NUMBER : ℚ := 1 / 100000000

/-- Modelled from the spec: `FMath::Clamp` is an engine function, absent from the sources;
it is taken by its engine definition, `X < Min ? Min : (X < Max ? X : Max)`.  Every use
in the code has `Min ≤ Max` or is stated under that condition. -/
def Clamp {α : Type} [LT α] [DecidableRel (fun a b : α => a < b)] (X Min Max : α) : α :=
  if X < Min then Min else if X < Max then X else Max

/-- `FMath::Square`. -/
def Square (A : ℚ) : ℚ := A * A

/-- The value `INT_MIN` of `int32`. -/
def INT_MIN : Int := -2147483648

/-- The value `INT_MAX` of `int32`. -/
def INT_MAX : Int := 2147483647

/-- `FMath::FloorToInt`, whose result is an `int32`: the floor when it lies in
`[INT_MIN, INT_MAX]`.  A floor outside that range has no `int32` value; the conversion
then produces the "integer indefinite" value `INT_MIN`, which is what is returned here. -/
def FloorToInt (F : ℚ) : Int :=
  if INT_MIN ≤ Int.floor F ∧ Int.floor F ≤ INT_MAX then Int.floor F else INT_MIN

/-- The engine vector type `FVector`, with exact components. -/
structure FVector where
  X : ℚ
  Y : ℚ
  Z : ℚ
  deriving DecidableEq, Repr

namespace FVector

/-- `FVector::ZeroVector`. -/
def ZeroVector : FVector := ⟨0, 0, 0⟩

/-- `FVector::ForwardVector`. -/
def ForwardVector : FVector := ⟨1, 0, 0⟩

/-- `FVector::UpVector`. -/
def UpVector : FVector := ⟨0, 0, 1⟩

/-- `FVector::operator*(float)`. -/
def scale (V : FVector) (k : ℚ) : FVector := ⟨V.X * k, V.Y * k, V.Z * k⟩

/-- `FVector::operator+`. -/
def add (A B : FVector) : FVector := ⟨A.X + B.X, A.Y + B.Y, A.Z + B.Z⟩

/-- `FVector::operator-(FVector)`, used in the statement of the damped torque. -/
def sub (A B : FVector) : FVector := ⟨A.X - B.X, A.Y - B.Y, A.Z - B.Z⟩

/-- Unary `FVector::operator-`. -/
def neg (V : FVector) : FVector := ⟨-V.X, -V.Y, -V.Z⟩

/-- `FVector::DotProduct`. -/
def DotProduct (A B : FVector) : ℚ := A.X * B.X + A.Y * B.Y + A.Z * B.Z

/-- `FVector::SizeSquared`. -/
def SizeSquared (V : FVector) : ℚ := V.X * V.X + V.Y * V.Y + V.Z * V.Z

/-- Modelled from the spec: `FVector::GetSafeNormal` is an engine function, absent from the
sources; it is taken by its engine definition with the default arguments
(`Tolerance = SMALL_NUMBER`, `ResultIfZero = ZeroVector`): a vector of squared length
exactly one is returned as is, one of squared length below the tolerance gives the zero
vector, any other is scaled by `InvSqrt(SquareSum)`. -/
def GetSafeNormal (invSqrt : ℚ → ℚ) (V : FVector) : FVector :=
  let SquareSum := V.SizeSquared
  if SquareSum = 1 then V
  else if SquareSum < SMALL_NUMBER then ZeroVector
  else V.scale (invSqrt SquareSum)

end FVector

/-! ## AAcceleratedForceApplier -/

/-- The enum `EForceMode`. -/
inductive EForceMode where
  | ContinuousForce
  | InstantImpulse
  | TorqueForce
  deriving DecidableEq, Repr

/-- The call a force step makes on `TargetComponent`, with its vector argument. -/
inductive ForceCall where
  | AddForce (v : FVector)
  | AddImpulse (v : FVector)
  | AddTorqueInRadians (v : FVector)
  deriving DecidableEq, Repr

/-- The vector argument of a call. -/
def ForceCall.vector : ForceCall → FVector
  | .AddForce v => v
  | .AddImpulse v => v
  | .AddTorqueInRadians v => v

/-- The fields of `AAcceleratedForceApplier` read or written by `ApplyPhysicsForce`. -/
structure AAcceleratedForceApplier where
  ForceMode : EForceMode
  ForceDirection : FVector
  ForceMagnitude : ℚ
  TorqueAxis : FVector
  TorqueMagnitude : ℚ
  bIgnoreMass : Bool
  CurrentForceMagnitude : ℚ
  deriving DecidableEq, Repr

namespace AAcceleratedForceApplier

/-- The constructor `AAcceleratedForceApplier::AAcceleratedForceApplier`. -/
def construct : AAcceleratedForceApplier :=
  { ForceMode := EForceMode.ContinuousForce
    ForceDirection := FVector.ForwardVector
    TorqueAxis := FVector.UpVector
    ForceMagnitude := 1000
    TorqueMagnitude := 500
    bIgnoreMass := false
    CurrentForceMagnitude := 0 }

/-- The method `AAcceleratedForceApplier::ApplyPhysicsForce`: the new state and the call
made on the target. -/
def ApplyPhysicsForce (invSqrt : ℚ → ℚ) (DeltaTime : ℚ) (s : AAcceleratedForceApplier) :
    AAcceleratedForceApplier × ForceCall :=
  let NormalizedForceDir := s.ForceDirection.GetSafeNormal invSqrt
  let NormalizedTorqueAxis := s.TorqueAxis.GetSafeNormal invSqrt
  match s.ForceMode with
  | EForceMode.ContinuousForce =>
    let s1 := { s with CurrentForceMagnitude := s.CurrentForceMagnitude + s.ForceMagnitude * DeltaTime }
    let s2 := { s1 with
      CurrentForceMagnitude := Clamp s1.CurrentForceMagnitude 0 (s1.ForceMagnitude * 10) }
    (s2, ForceCall.AddForce (NormalizedForceDir.scale s2.CurrentForceMagnitude))
  | EForceMode.InstantImpulse =>
    ({ s with CurrentForceMagnitude := 0 },
      ForceCall.AddImpulse (NormalizedForceDir.scale s.ForceMagnitude))
  | EForceMode.TorqueForce =>
    (s, ForceCall.AddTorqueInRadians (NormalizedTorqueAxis.scale s.TorqueMagnitude))

/-- Successive `ApplyPhysicsForce` steps, one per elapsed time of the list: the final
state and the calls made, in order. -/
def run (invSqrt : ℚ → ℚ) : List ℚ → AAcceleratedForceApplier →
    AAcceleratedForceApplier × List ForceCall
  | [], s => (s, [])
  | dt :: dts, s =>
    let r := ApplyPhysicsForce invSqrt dt s
    let rest := run invSqrt dts r.1
    (rest.1, r.2 :: rest.2)

end AAcceleratedForceApplier

/-! ## ATorqueApplier -/

/-- The enum `ETorqueApplicationMode`. -/
inductive ETorqueApplicationMode where
  | ConstantTorque
  | ImpulseTorque
  | DampedTorque
  deriving DecidableEq, Repr

/-- The call a torque step makes on `TargetComponent`, with its vector argument. -/
inductive TorqueCall where
  | AddTorqueInRadians (v : FVector)
  | AddAngularImpulseInRadians (v : FVector)
  deriving DecidableEq, Repr

/-- The vector argument of a call. -/
def TorqueCall.vector : TorqueCall → FVector
  | .AddTorqueInRadians v => v
  | .AddAngularImpulseInRadians v => v

/-- The fields of `ATorqueApplier` read or written by `ApplyTorque`. -/
structure ATorqueApplier where
  TorqueMode : ETorqueApplicationMode
  TorqueAxis : FVector
  TorqueMagnitude : ℚ
  DampingFactor : ℚ
  bIgnoreMass : Bool
  bImpulseApplied : Bool
  deriving DecidableEq, Repr

namespace ATorqueApplier

/-- The constructor `ATorqueApplier::ATorqueApplier`. -/
def construct : ATorqueApplier :=
  { TorqueMode := ETorqueApplicationMode.ConstantTorque
    TorqueAxis := FVector.UpVector
    TorqueMagnitude := 1000
    DampingFactor := 1
    bIgnoreMass := false
    bImpulseApplied := false }

/-- The method `ATorqueApplier::ApplyTorque`.  `AngularVelocity` is what
`TargetComponent->GetPhysicsAngularVelocityInRadians()` returns at this step (read in
`DampedTorque` mode only).  The result is the new state and the call made on the target,
if one is made. -/
def ApplyTorque (invSqrt : ℚ → ℚ) (DeltaTime : ℚ) (AngularVelocity : FVector)
    (s : ATorqueApplier) : ATorqueApplier × Option TorqueCall :=
  let NormalizedAxis := s.TorqueAxis.GetSafeNormal invSqrt
  match s.TorqueMode with
  | ETorqueApplicationMode.ConstantTorque =>
    (s, some (TorqueCall.AddTorqueInRadians (NormalizedAxis.scale s.TorqueMagnitude)))
  | ETorqueApplicationMode.ImpulseTorque =>
    if !s.bImpulseApplied then
      ({ s with bImpulseApplied := true },
        some (TorqueCall.AddAngularImpulseInRadians (NormalizedAxis.scale s.TorqueMagnitude)))
    else (s, none)
  | ETorqueApplicationMode.DampedTorque =>
    let AppliedTorque := NormalizedAxis.scale s.TorqueMagnitude
    let AngularVelAlongAxis := FVector.DotProduct AngularVelocity NormalizedAxis
    let DampingTorque := (NormalizedAxis.neg.scale AngularVelAlongAxis).scale s.DampingFactor
    let TotalTorque := AppliedTorque.add DampingTorque
    (s, some (TorqueCall.AddTorqueInRadians TotalTorque))

/-- Successive `ApplyTorque` steps, one per pair (elapsed time, angular velocity read at
that step): the final state and what each step emitted, in order. -/
def run (invSqrt : ℚ → ℚ) : List (ℚ × FVector) → ATorqueApplier →
    ATorqueApplier × List (Option TorqueCall)
  | [], s => (s, [])
  | x :: xs, s =>
    let r := ApplyTorque invSqrt x.1 x.2 s
    let rest := run invSqrt xs r.1
    (rest.1, r.2 :: rest.2)

end ATorqueApplier

/-! ## AAcceleratingTutorialThreshold -/

/-- The enum `EPhase`. -/
inductive EPhase where
  | Phase_0
  | Phase_1
  | Phase_2
  | Phase_3
  | Phase_4
  | Phase_5
  deriving DecidableEq, Repr

namespace EPhase

/-- The underlying value of an enumerator. -/
def toIndex : EPhase → Int
  | Phase_0 => 0
  | Phase_1 => 1
  | Phase_2 => 2
  | Phase_3 => 3
  | Phase_4 => 4
  | Phase_5 => 5

/-- The cast `static_cast<EPhase>(PhaseIndex)`.  The code only casts an index already
clamped to `[0, 5]`; an index outside that range has no enumerator and is sent to
`Phase_5` here. -/
def ofIndex (PhaseIndex : Int) : EPhase :=
  if PhaseIndex = 0 then Phase_0
  else if PhaseIndex = 1 then Phase_1
  else if PhaseIndex = 2 then Phase_2
  else if PhaseIndex = 3 then Phase_3
  else if PhaseIndex = 4 then Phase_4
  else Phase_5

end EPhase

/-- The engine function `FMath::FInterpTo` that `Tick` calls.  It is not part of the
sources and is written out from its engine definition: a non-positive speed, or a squared
distance below `SMALL_NUMBER`, gives the target; otherwise the value moves towards the
target by the distance times `Clamp(DeltaTime * InterpSpeed, 0, 1)`.  This is a linear
blend with a snap to the target, not the exponential rule
`target - (target - value) * exp(-speed * elapsed)`. -/
def FInterpTo (Current Target DeltaTime InterpSpeed : ℚ) : ℚ :=
  if InterpSpeed ≤ 0 then Target
  else
    let Dist := Target - Current
    if Square Dist < SMALL_NUMBER then Target
    else
      let DeltaMove := Dist * Clamp (DeltaTime * InterpSpeed) 0 1
      Current + DeltaMove

/-- The fields of `AAcceleratingTutorialThreshold`. -/
structure AAcceleratingTutorialThreshold where
  Threshold : ℚ
  CurrentPhase : EPhase
  BaseInterpSpeed : ℚ
  InterpAcceleration : ℚ
  CurrentInterpSpeed : ℚ
  PreviousPhase : EPhase
  deriving DecidableEq, Repr

namespace AAcceleratingTutorialThreshold

/-- The constructor `AAcceleratingTutorialThreshold::AAcceleratingTutorialThreshold`. -/
def construct : AAcceleratingTutorialThreshold :=
  { Threshold := 0
    BaseInterpSpeed := 1 / 10
    InterpAcceleration := 3 / 10
    CurrentInterpSpeed := 1 / 10
    CurrentPhase := EPhase.Phase_0
    PreviousPhase := EPhase.Phase_0 }

/-- The local `PhaseIndex` of `UpdatePhase`:
`FMath::Clamp(FMath::FloorToInt(Threshold * 5.f), 0, 5)`. -/
def PhaseIndex (Threshold : ℚ) : Int :=
  Clamp (FloorToInt (Threshold * 5)) 0 5

/-- The method `AAcceleratingTutorialThreshold::UpdatePhase`: the new state and the phase
broadcast on `OnPhaseChanged`, if a broadcast is made. -/
def UpdatePhase (s : AAcceleratingTutorialThreshold) :
    AAcceleratingTutorialThreshold × Option EPhase :=
  let s1 := { s with CurrentPhase := EPhase.ofIndex (PhaseIndex s.Threshold) }
  if s1.CurrentPhase ≠ s1.PreviousPhase then
    ({ s1 with PreviousPhase := s1.CurrentPhase }, some s1.CurrentPhase)
  else (s1, none)

/-- The method `AAcceleratingTutorialThreshold::Tick`. -/
def Tick (DeltaTime : ℚ) (s : AAcceleratingTutorialThreshold) :
    AAcceleratingTutorialThreshold × Option EPhase :=
  let s1 := { s with CurrentInterpSpeed := s.CurrentInterpSpeed + s.InterpAcceleration * DeltaTime }
  let s2 := { s1 with Threshold := FInterpTo s1.Threshold 1 DeltaTime s1.CurrentInterpSpeed }
  UpdatePhase s2

/-- Successive `Tick` calls, one per elapsed time of the list: the final state and what
each call broadcast, in order. -/
def run : List ℚ → AAcceleratingTutorialThreshold →
    AAcceleratingTutorialThreshold × List (Option EPhase)
  | [], s => (s, [])
  | dt :: dts, s =>
    let r := Tick dt s
    let rest := run dts r.1
    (rest.1, r.2 :: rest.2)

/-- The state after `n` calls `Tick(dt)` with the same elapsed time. -/
def TickN (dt : ℚ) : Nat → AAcceleratingTutorialThreshold → AAcceleratingTutorialThreshold
  | 0, s => s
  | n + 1, s => (Tick dt (TickN dt n s)).1

/-- The state with `Threshold` holding the value `t`, every other field kept. -/
def withThreshold (t : ℚ) (s : AAcceleratingTutorialThreshold) : AAcceleratingTutorialThreshold :=
  { s with Threshold := t }

/-- Successive evaluations of `UpdatePhase`, one for each value of the list taken by
`Threshold` at that evaluation: the final state and what each evaluation broadcast. -/
def evalPhases : List ℚ → AAcceleratingTutorialThreshold →
    AAcceleratingTutorialThreshold × List (Option EPhase)
  | [], s => (s, [])
  | t :: ts, s =>
    let r := UpdatePhase (withThreshold t s)
    let rest := evalPhases ts r.1
    (rest.1, r.2 :: rest.2)

/-- The quantization into `num_phases` uniform bins, as the specification words it:
`clamp(floor(value * num_phases), 0, num_phases - 1)`. -/
def specPhaseIndex (num_phases : Int) (value : ℚ) : Int :=
  Clamp (Int.floor (value * num_phases)) 0 (num_phases - 1)

end AAcceleratingTutorialThreshold

/-! ## The same code in binary32 arithmetic

A second embedding of the three routines in which `float` is IEEE 754 binary32 with
round to nearest, ties to even, overflow to an infinity, and NaN.  Every arithmetic
operation of the source is rounded on its own, without extended precision or fused
multiply-add, and the vector components are binary32 as well.  It is used where
rounding, overflow or NaN decides what the code does. -/

namespace Binary32

/-- A binary32 value: a finite number, kept as the exact rational it denotes, an infinity
with its sign, or NaN.  The two zeros are not distinguished. -/
inductive F32 where
  | finite (q : ℚ)
  | inf (negative : Bool)
  | nan
  deriving DecidableEq, Repr

/-- Rounding of a rational to the nearest integer, a tie going to the even one. -/
def roundHalfEven (x : ℚ) : Int :=
  if x - Int.floor x < 1 / 2 then Int.floor x
  else if 1 / 2 < x - Int.floor x then Int.floor x + 1
  else if Int.floor x % 2 = 0 then Int.floor x
  else Int.floor x + 1

/-- The exponent of the last significand bit of the binary32 numbers around `x`: 24
significant bits in the normal range, a fixed spacing `2^-149` below `2^-126`. -/
def ulpExponent (x : ℚ) : Int := max (Int.log 2 |x|) (-126) - 23

/-- The largest finite binary32 number, `(2^24 - 1) * 2^104`. -/
def maxFinite : ℚ := (2 ^ 24 - 1) * 2 ^ 104

/-- Rounding of an exact result to binary32: to the nearest representable number, ties
to even; a result that rounds beyond `maxFinite` becomes the infinity of its sign. -/
def round32 (x : ℚ) : F32 :=
  if maxFinite < |(roundHalfEven (x / 2 ^ ulpExponent x) : ℚ) * 2 ^ ulpExponent x| then
    F32.inf (decide (x < 0))
  else F32.finite ((roundHalfEven (x / 2 ^ ulpExponent x) : ℚ) * 2 ^ ulpExponent x)

namespace F32

/-- Unary minus. -/
def neg : F32 → F32
  | finite q => finite (-q)
  | inf s => inf (!s)
  | nan => nan

/-- Addition of binary32. -/
def add : F32 → F32 → F32
  | finite a, finite b => round32 (a + b)
  | finite _, inf s => inf s
  | inf s, finite _ => inf s
  | inf s, inf t => if s = t then inf s else nan
  | nan, _ => nan
  | _, nan => nan

/-- Subtraction of binary32. -/
def sub (a b : F32) : F32 := add a (neg b)

/-- Multiplication of binary32; zero times an infinity is NaN. -/
def mul : F32 → F32 → F32
  | finite a, finite b => round32 (a * b)
  | finite a, inf s => if a = 0 then nan else inf (xor (decide (a < 0)) s)
  | inf s, finite b => if b = 0 then nan else inf (xor s (decide (b < 0)))
  | inf s, inf t => inf (xor s t)
  | nan, _ => nan
  | _, nan => nan

/-- The comparison `<`; false when an operand is NaN. -/
def lt : F32 → F32 → Bool
  | finite a, finite b => decide (a < b)
  | finite _, inf s => !s
  | inf s, finite _ => s
  | inf s, inf t => s && !t
  | nan, _ => false
  | _, nan => false

/-- The comparison `<=`; false when an operand is NaN. -/
def le : F32 → F32 → Bool
  | finite a, finite b => decide (a ≤ b)
  | finite _, inf s => !s
  | inf s, finite _ => s
  | inf s, inf t => s || !t
  | nan, _ => false
  | _, nan => false

/-- The comparison `==`; false when an operand is NaN. -/
def eq : F32 → F32 → Bool
  | finite a, finite b => decide (a = b)
  | inf s, inf t => decide (s = t)
  | _, _ => false

end F32

/-- The engine constant `SMALL_NUMBER`, the binary32 value of the literal `1.e-8f`. -/
def SMALL_NUMBER : F32 := round32 (1 / 100000000)

/-- `FMath::Clamp` on binary32, `X < Min ? Min : (X < Max ? X : Max)`. -/
def Clamp (X Min Max : F32) : F32 :=
  if X.lt Min then Min else if X.lt Max then X else Max

/-- `FMath::Square` on binary32. -/
def Square (A : F32) : F32 := A.mul A

/-- `FMath::FloorToInt` on binary32: an infinity or NaN has no `int32` value either and
gives `INT_MIN`. -/
def FloorToInt : F32 → Int
  | F32.finite q => UnrealForge.FloorToInt q
  | _ => INT_MIN

/-- The engine vector type `FVector` with binary32 components. -/
structure FVector where
  X : F32
  Y : F32
  Z : F32
  deriving DecidableEq, Repr

namespace FVector

/-- `FVector::ZeroVector`. -/
def ZeroVector : FVector := ⟨F32.finite 0, F32.finite 0, F32.finite 0⟩

/-- `FVector::ForwardVector`. -/
def ForwardVector : FVector := ⟨F32.finite 1, F32.finite 0, F32.finite 0⟩

/-- `FVector::UpVector`. -/
def UpVector : FVector := ⟨F32.finite 0, F32.finite 0, F32.finite 1⟩

/-- `FVector::operator*(float)`. -/
def scale (V : FVector) (k : F32) : FVector := ⟨V.X.mul k, V.Y.mul k, V.Z.mul k⟩

/-- `FVector::operator+`. -/
def add (A B : FVector) : FVector := ⟨A.X.add B.X, A.Y.add B.Y, A.Z.add B.Z⟩

/-- Unary `FVector::operator-`. -/
def neg (V : FVector) : FVector := ⟨V.X.neg, V.Y.neg, V.Z.neg⟩

/-- `FVector::DotProduct`, `A.X*B.X + A.Y*B.Y + A.Z*B.Z` evaluated left to right. -/
def DotProduct (A B : FVector) : F32 := ((A.X.mul B.X).add (A.Y.mul B.Y)).add (A.Z.mul B.Z)

/-- `FVector::SizeSquared`. -/
def SizeSquared (V : FVector) : F32 := ((V.X.mul V.X).add (V.Y.mul V.Y)).add (V.Z.mul V.Z)

/-- `FVector::GetSafeNormal` with its default arguments, as in the exact embedding; the
reciprocal square root is the parameter `invSqrt`. -/
def GetSafeNormal (invSqrt : F32 → F32) (V : FVector) : FVector :=
  if V.SizeSquared.eq (F32.finite 1) then V
  else if V.SizeSquared.lt SMALL_NUMBER then ZeroVector
  else V.scale (invSqrt V.SizeSquared)

end FVector

/-- The call a force step makes on `TargetComponent`, with its vector argument. -/
inductive ForceCall where
  | AddForce (v : FVector)
  | AddImpulse (v : FVector)
  | AddTorqueInRadians (v : FVector)
  deriving DecidableEq, Repr

/-- The vector argument of a call. -/
def ForceCall.vector : ForceCall → FVector
  | .AddForce v => v
  | .AddImpulse v => v
  | .AddTorqueInRadians v => v

/-- The fields of `AAcceleratedForceApplier`, the `float` ones in binary32. -/
structure AAcceleratedForceApplier where
  ForceMode : EForceMode
  ForceDirection : FVector
  ForceMagnitude : F32
  TorqueAxis : FVector
  TorqueMagnitude : F32
  bIgnoreMass : Bool
  CurrentForceMagnitude : F32
  deriving DecidableEq, Repr

namespace AAcceleratedForceApplier

/-- The constructor `AAcceleratedForceApplier::AAcceleratedForceApplier`. -/
def construct : AAcceleratedForceApplier :=
  { ForceMode := EForceMode.ContinuousForce
    ForceDirection := FVector.ForwardVector
    TorqueAxis := FVector.UpVector
    ForceMagnitude := F32.finite 1000
    TorqueMagnitude := F32.finite 500
    bIgnoreMass := false
    CurrentForceMagnitude := F32.finite 0 }

/-- The method `AAcceleratedForceApplier::ApplyPhysicsForce` in binary32. -/
def ApplyPhysicsForce (invSqrt : F32 → F32) (DeltaTime : F32) (s : AAcceleratedForceApplier) :
    AAcceleratedForceApplier × ForceCall :=
  let NormalizedForceDir := s.ForceDirection.GetSafeNormal invSqrt
  let NormalizedTorqueAxis := s.TorqueAxis.GetSafeNormal invSqrt
  match s.ForceMode with
  | EForceMode.ContinuousForce =>
    let s1 := { s with
      CurrentForceMagnitude := s.CurrentForceMagnitude.add (s.ForceMagnitude.mul DeltaTime) }
    let s2 := { s1 with
      CurrentForceMagnitude :=
        Clamp s1.CurrentForceMagnitude (F32.finite 0) (s1.ForceMagnitude.mul (F32.finite 10)) }
    (s2, ForceCall.AddForce (NormalizedForceDir.scale s2.CurrentForceMagnitude))
  | EForceMode.InstantImpulse =>
    ({ s with CurrentForceMagnitude := F32.finite 0 },
      ForceCall.AddImpulse (NormalizedForceDir.scale s.ForceMagnitude))
  | EForceMode.TorqueForce =>
    (s, ForceCall.AddTorqueInRadians (NormalizedTorqueAxis.scale s.TorqueMagnitude))

/-- Successive `ApplyPhysicsForce` steps in binary32, one per elapsed time of the list. -/
def run (invSqrt : F32 → F32) : List F32 → AAcceleratedForceApplier →
    AAcceleratedForceApplier × List ForceCall
  | [], s => (s, [])
  | dt :: dts, s =>
    let r := ApplyPhysicsForce invSqrt dt s
    let rest := run invSqrt dts r.1
    (rest.1, r.2 :: rest.2)

end AAcceleratedForceApplier

/-- The call a torque step makes on `TargetComponent`, with its vector argument. -/
inductive TorqueCall where
  | AddTorqueInRadians (v : FVector)
  | AddAngularImpulseInRadians (v : FVector)
  deriving DecidableEq, Repr

/-- The vector argument of a call. -/
def TorqueCall.vector : TorqueCall → FVector
  | .AddTorqueInRadians v => v
  | .AddAngularImpulseInRadians v => v

/-- The fields of `ATorqueApplier`, the `float` ones in binary32. -/
structure ATorqueApplier where
  TorqueMode : ETorqueApplicationMode
  TorqueAxis : FVector
  TorqueMagnitude : F32
  DampingFactor : F32
  bIgnoreMass : Bool
  bImpulseApplied : Bool
  deriving DecidableEq, Repr

namespace ATorqueApplier

/-- The constructor `ATorqueApplier::ATorqueApplier`. -/
def construct : ATorqueApplier :=
  { TorqueMode := ETorqueApplicationMode.ConstantTorque
    TorqueAxis := FVector.UpVector
    TorqueMagnitude := F32.finite 1000
    DampingFactor := F32.finite 1
    bIgnoreMass := false
    bImpulseApplied := false }

/-- The method `ATorqueApplier::ApplyTorque` in binary32. -/
def ApplyTorque (invSqrt : F32 → F32) (DeltaTime : F32) (AngularVelocity : FVector)
    (s : ATorqueApplier) : ATorqueApplier × Option TorqueCall :=
  let NormalizedAxis := s.TorqueAxis.GetSafeNormal invSqrt
  match s.TorqueMode with
  | ETorqueApplicationMode.ConstantTorque =>
    (s, some (TorqueCall.AddTorqueInRadians (NormalizedAxis.scale s.TorqueMagnitude)))
  | ETorqueApplicationMode.ImpulseTorque =>
    if !s.bImpulseApplied then
      ({ s with bImpulseApplied := true },
        some (TorqueCall.AddAngularImpulseInRadians (NormalizedAxis.scale s.TorqueMagnitude)))
    else (s, none)
  | ETorqueApplicationMode.DampedTorque =>
    let AppliedTorque := NormalizedAxis.scale s.TorqueMagnitude
    let AngularVelAlongAxis := FVector.DotProduct AngularVelocity NormalizedAxis
    let DampingTorque := (NormalizedAxis.neg.scale AngularVelAlongAxis).scale s.DampingFactor
    let TotalTorque := AppliedTorque.add DampingTorque
    (s, some (TorqueCall.AddTorqueInRadians TotalTorque))

end ATorqueApplier

/-- `FMath::FInterpTo` in binary32, by the same engine definition as `FInterpTo`. -/
def FInterpTo (Current Target DeltaTime InterpSpeed : F32) : F32 :=
  if InterpSpeed.le (F32.finite 0) then Target
  else if (Square (Target.sub Current)).lt SMALL_NUMBER then Target
  else Current.add ((Target.sub Current).mul
    (Clamp (DeltaTime.mul InterpSpeed) (F32.finite 0) (F32.finite 1)))

/-- The fields of `AAcceleratingTutorialThreshold`, the `float` ones in binary32. -/
structure AAcceleratingTutorialThreshold where
  Threshold : F32
  CurrentPhase : EPhase
  BaseInterpSpeed : F32
  InterpAcceleration : F32
  CurrentInterpSpeed : F32
  PreviousPhase : EPhase
  deriving DecidableEq, Repr

namespace AAcceleratingTutorialThreshold

/-- The local `PhaseIndex` of `UpdatePhase` in binary32. -/
def PhaseIndex (Threshold : F32) : Int :=
  UnrealForge.Clamp (FloorToInt (Threshold.mul (F32.finite 5))) 0 5

/-- The method `AAcceleratingTutorialThreshold::UpdatePhase` in binary32. -/
def UpdatePhase (s : AAcceleratingTutorialThreshold) :
    AAcceleratingTutorialThreshold × Option EPhase :=
  let s1 := { s with CurrentPhase := EPhase.ofIndex (PhaseIndex s.Threshold) }
  if s1.CurrentPhase ≠ s1.PreviousPhase then
    ({ s1 with PreviousPhase := s1.CurrentPhase }, some s1.CurrentPhase)
  else (s1, none)

/-- The method `AAcceleratingTutorialThreshold::Tick` in binary32. -/
def Tick (DeltaTime : F32) (s : AAcceleratingTutorialThreshold) :
    AAcceleratingTutorialThreshold × Option EPhase :=
  let s1 := { s with
    CurrentInterpSpeed := s.CurrentInterpSpeed.add (s.InterpAcceleration.mul DeltaTime) }
  let s2 := { s1 with
    Threshold := FInterpTo s1.Threshold (F32.finite 1) DeltaTime s1.CurrentInterpSpeed }
  UpdatePhase s2

/-- The state after `n` calls `Tick(dt)` with the same elapsed time, in binary32. -/
def TickN (dt : F32) : Nat → AAcceleratingTutorialThreshold → AAcceleratingTutorialThreshold
  | 0, s => s
  | n + 1, s => (Tick dt (TickN dt n s)).1

/-- An actor at `Threshold = 0` with speed `2^-100` and no acceleration. -/
def slowStart : AAcceleratingTutorialThreshold :=
  { Threshold := F32.finite 0
    CurrentPhase := EPhase.Phase_0
    BaseInterpSpeed := F32.finite (1 / 2 ^ 100)
    InterpAcceleration := F32.finite 0
    CurrentInterpSpeed := F32.finite (1 / 2 ^ 100)
    PreviousPhase := EPhase.Phase_0 }

/-- An actor at `Threshold = 2096777 / 2^21`, about `0.99982119`, whose speed is the
binary32 value of `0.01`, with no acceleration. -/
def nearOne : AAcceleratingTutorialThreshold :=
  { Threshold := F32.finite (2096777 / 2097152)
    CurrentPhase := EPhase.Phase_4
    BaseInterpSpeed := F32.finite (5368709 / 536870912)
    InterpAcceleration := F32.finite 0
    CurrentInterpSpeed := F32.finite (5368709 / 536870912)
    PreviousPhase := EPhase.Phase_4 }

end AAcceleratingTutorialThreshold

end Binary32

/-! ## Shared lemmas -/

theorem Clamp_bounds {α : Type} [LinearOrder α] (X Min Max : α) (h : Min ≤ Max) :
    Min ≤ Clamp X Min Max ∧ Clamp X Min Max ≤ Max := by
  unfold Clamp
  split_ifs with h1 h2
  · exact ⟨le_refl _, h⟩
  · exact ⟨not_lt.mp h1, le_of_lt h2⟩
  · exact ⟨h, le_refl _⟩

namespace AAcceleratedForceApplier

theorem ApplyPhysicsForce_ForceMode (invSqrt : ℚ → ℚ) (dt : ℚ) (s : AAcceleratedForceApplier) :
    (ApplyPhysicsForce invSqrt dt s).1.ForceMode = s.ForceMode ∧
    (ApplyPhysicsForce invSqrt dt s).1.ForceMagnitude = s.ForceMagnitude := by
  unfold ApplyPhysicsForce
  cases h : s.ForceMode <;> simp [h]

theorem ApplyPhysicsForce_continuous_bounds (invSqrt : ℚ → ℚ) (dt : ℚ)
    (s : AAcceleratedForceApplier) (hmode : s.ForceMode = EForceMode.ContinuousForce)
    (hmag : 0 ≤ s.ForceMagnitude) :
    0 ≤ (ApplyPhysicsForce invSqrt dt s).1.CurrentForceMagnitude ∧
    (ApplyPhysicsForce invSqrt dt s).1.CurrentForceMagnitude ≤ 10 * s.ForceMagnitude := by
  unfold ApplyPhysicsForce
  simp only [hmode]
  have h := Clamp_bounds (s.CurrentForceMagnitude + s.ForceMagnitude * dt) 0
    (s.ForceMagnitude * 10) (by linarith)
  constructor
  · exact h.1
  · linarith [h.2]

theorem run_continuous_bounds (invSqrt : ℚ → ℚ) (dts : List ℚ) :
    ∀ (dt : ℚ) (s : AAcceleratedForceApplier),
      s.ForceMode = EForceMode.ContinuousForce → 0 ≤ s.ForceMagnitude →
      0 ≤ (run invSqrt (dt :: dts) s).1.CurrentForceMagnitude ∧
      (run invSqrt (dt :: dts) s).1.CurrentForceMagnitude ≤ 10 * s.ForceMagnitude := by
  induction dts with
  | nil =>
    intro dt s hmode hmag
    simpa [run] using ApplyPhysicsForce_continuous_bounds invSqrt dt s hmode hmag
  | cons d ds ih =>
    intro dt s hmode hmag
    have hk := ApplyPhysicsForce_ForceMode invSqrt dt s
    have h := ih d (ApplyPhysicsForce invSqrt dt s).1 (hk.1.trans hmode) (by rw [hk.2]; exact hmag)
    rw [hk.2] at h
    simpa [run] using h

/-- C1: in `ContinuousForce` mode with `ForceMagnitude ≥ 0`, one `ApplyPhysicsForce`
step from any state and for any `DeltaTime` leaves `0 ≤ CurrentForceMagnitude ≤
10 * ForceMagnitude`; the same bounds hold after every non-empty sequence of steps, so
with `ForceMagnitude = 1000` the magnitude never exceeds `10000`. -/
theorem continuous_magnitude_clamped (invSqrt : ℚ → ℚ) (s : AAcceleratedForceApplier)
    (hmode : s.ForceMode = EForceMode.ContinuousForce) (hmag : 0 ≤ s.ForceMagnitude) :
    (∀ dt : ℚ, 0 ≤ (ApplyPhysicsForce invSqrt dt s).1.CurrentForceMagnitude ∧
      (ApplyPhysicsForce invSqrt dt s).1.CurrentForceMagnitude ≤ 10 * s.ForceMagnitude) ∧
    (∀ (dt : ℚ) (dts : List ℚ),
      0 ≤ (run invSqrt (dt :: dts) s).1.CurrentForceMagnitude ∧
      (run invSqrt (dt :: dts) s).1.CurrentForceMagnitude ≤ 10 * s.ForceMagnitude) ∧
    (s.ForceMagnitude = 1000 → ∀ (dt : ℚ) (dts : List ℚ),
      (run invSqrt (dt :: dts) s).1.CurrentForceMagnitude ≤ 10000) := by
  refine ⟨fun dt => ApplyPhysicsForce_continuous_bounds invSqrt dt s hmode hmag,
    fun dt dts => run_continuous_bounds invSqrt dts dt s hmode hmag, ?_⟩
  intro h1000 dt dts
  have h := (run_continuous_bounds invSqrt dts dt s hmode hmag).2
  rw [h1000] at h
  linarith

/-- The constructed actor (continuous mode, rate 1000) stepped by 20 seconds and then by
5 more: the magnitude is within the bound at both points. -/
theorem continuous_magnitude_clamped_witness :
    construct.ForceMode = EForceMode.ContinuousForce ∧ (0 : ℚ) ≤ construct.ForceMagnitude ∧
    (ApplyPhysicsForce (fun _ => 1) 20 construct).1.CurrentForceMagnitude
      ≤ 10 * construct.ForceMagnitude ∧
    (run (fun _ => 1) [20, 5] construct).1.CurrentForceMagnitude ≤ 10000 :=
  ⟨rfl, by norm_num [construct],
    ((continuous_magnitude_clamped (fun _ => 1) construct rfl (by norm_num [construct])).1 20).2,
    (continuous_magnitude_clamped (fun _ => 1) construct rfl (by norm_num [construct])).2.2
      rfl 20 [5]⟩

/-- C2, as stated, fails: the constructed actor switched to `InstantImpulse` emits the
impulse `(1000, 0, 0)` on the first step and again on the second, not the zero vector. -/
theorem impulse_second_step_not_zero :
    (run (fun _ => 1) [1 / 60, 1 / 60]
        { construct with ForceMode := EForceMode.InstantImpulse }).2
      = [ForceCall.AddImpulse ⟨1000, 0, 0⟩, ForceCall.AddImpulse ⟨1000, 0, 0⟩] ∧
    (ApplyPhysicsForce (fun _ => 1) (1 / 60)
        (ApplyPhysicsForce (fun _ => 1) (1 / 60)
          { construct with ForceMode := EForceMode.InstantImpulse }).1).2.vector
      ≠ FVector.ZeroVector := by
  norm_num [run, ApplyPhysicsForce, construct, FVector.GetSafeNormal, FVector.ForwardVector,
    FVector.scale, FVector.SizeSquared, ForceCall.vector, FVector.ZeroVector]

/-- C2, amended: in `InstantImpulse` mode every `ApplyPhysicsForce` step emits the impulse
`normalized(ForceDirection) * ForceMagnitude` and sets `CurrentForceMagnitude` to `0`,
changing nothing else; the actor keeps no armed flag, so of two consecutive steps both
emit the same fixed vector. -/
theorem impulse_emitted_every_step (invSqrt : ℚ → ℚ) (s : AAcceleratedForceApplier)
    (dt1 dt2 : ℚ) (hmode : s.ForceMode = EForceMode.InstantImpulse) :
    ApplyPhysicsForce invSqrt dt1 s =
      ({ s with CurrentForceMagnitude := 0 },
        ForceCall.AddImpulse ((s.ForceDirection.GetSafeNormal invSqrt).scale s.ForceMagnitude)) ∧
    (run invSqrt [dt1, dt2] s).2 =
      [ForceCall.AddImpulse ((s.ForceDirection.GetSafeNormal invSqrt).scale s.ForceMagnitude),
       ForceCall.AddImpulse ((s.ForceDirection.GetSafeNormal invSqrt).scale s.ForceMagnitude)] ∧
    (run invSqrt [dt1, dt2] s).1.CurrentForceMagnitude = 0 := by
  have h1 : ApplyPhysicsForce invSqrt dt1 s =
      ({ s with CurrentForceMagnitude := 0 },
        ForceCall.AddImpulse ((s.ForceDirection.GetSafeNormal invSqrt).scale s.ForceMagnitude)) := by
    unfold ApplyPhysicsForce
    simp only [hmode]
  refine ⟨h1, ?_, ?_⟩
  · simp only [run, h1]
    simp [ApplyPhysicsForce, hmode]
  · simp only [run, h1]
    simp [ApplyPhysicsForce, hmode]

/-- The constructed actor switched to `InstantImpulse`, stepped twice at 60 Hz. -/
theorem impulse_emitted_every_step_witness :
    (run (fun _ => 1) [1 / 60, 1 / 60]
        { construct with ForceMode := EForceMode.InstantImpulse }).2 =
      [ForceCall.AddImpulse
          ((FVector.ForwardVector.GetSafeNormal (fun _ => 1)).scale 1000),
       ForceCall.AddImpulse
          ((FVector.ForwardVector.GetSafeNormal (fun _ => 1)).scale 1000)] :=
  (impulse_emitted_every_step (fun _ => 1)
    { construct with ForceMode := EForceMode.InstantImpulse } (1 / 60) (1 / 60) rfl).2.1

end AAcceleratedForceApplier

namespace ATorqueApplier

theorem ApplyTorque_flag_latched (invSqrt : ℚ → ℚ) (dt : ℚ) (w : FVector) (s : ATorqueApplier)
    (h : s.bImpulseApplied = true) : (ApplyTorque invSqrt dt w s).1.bImpulseApplied = true := by
  unfold ApplyTorque
  cases hm : s.TorqueMode <;> simp [h]

theorem ApplyTorque_TorqueMode (invSqrt : ℚ → ℚ) (dt : ℚ) (w : FVector) (s : ATorqueApplier) :
    (ApplyTorque invSqrt dt w s).1.TorqueMode = s.TorqueMode := by
  unfold ApplyTorque
  cases hm : s.TorqueMode
  · simp [hm]
  · by_cases hb : s.bImpulseApplied = true <;> simp [hb, hm]
  · simp [hm]

theorem run_impulse_applied (invSqrt : ℚ → ℚ) (xs : List (ℚ × FVector)) :
    ∀ s : ATorqueApplier, s.TorqueMode = ETorqueApplicationMode.ImpulseTorque →
      s.bImpulseApplied = true → (run invSqrt xs s).2 = List.replicate xs.length none := by
  induction xs with
  | nil => intro s _ _; rfl
  | cons x xs ih =>
    intro s hmode hflag
    have hstep : ApplyTorque invSqrt x.1 x.2 s = (s, none) := by
      unfold ApplyTorque
      simp [hmode, hflag]
    simp only [run, hstep, List.length_cons, List.replicate_succ]
    rw [ih s hmode hflag]

/-- C3: in `ImpulseTorque` mode, from a state with `bImpulseApplied = false` (as the
constructor leaves it), any sequence of `n ≥ 1` `ApplyTorque` steps emits the angular
impulse `normalized(TorqueAxis) * TorqueMagnitude` on the first step and nothing on steps
`2..n`; `bImpulseApplied` is true after the first step, and no `ApplyTorque` step, in any
mode, takes the flag from true back to false. -/
theorem impulse_torque_once (invSqrt : ℚ → ℚ) (s : ATorqueApplier)
    (x : ℚ × FVector) (xs : List (ℚ × FVector))
    (hmode : s.TorqueMode = ETorqueApplicationMode.ImpulseTorque)
    (hflag : s.bImpulseApplied = false) :
    construct.bImpulseApplied = false ∧
    (run invSqrt (x :: xs) s).2 =
      some (TorqueCall.AddAngularImpulseInRadians
          ((s.TorqueAxis.GetSafeNormal invSqrt).scale s.TorqueMagnitude))
        :: List.replicate xs.length none ∧
    (ApplyTorque invSqrt x.1 x.2 s).1.bImpulseApplied = true ∧
    (run invSqrt (x :: xs) s).1.bImpulseApplied = true ∧
    (∀ (t : ATorqueApplier) (dt : ℚ) (w : FVector), t.bImpulseApplied = true →
      (ApplyTorque invSqrt dt w t).1.bImpulseApplied = true) := by
  have hstep : ApplyTorque invSqrt x.1 x.2 s =
      ({ s with bImpulseApplied := true },
        some (TorqueCall.AddAngularImpulseInRadians
          ((s.TorqueAxis.GetSafeNormal invSqrt).scale s.TorqueMagnitude))) := by
    unfold ApplyTorque
    simp [hmode, hflag]
  have hrest := run_impulse_applied invSqrt xs { s with bImpulseApplied := true } hmode rfl
  have hkeep : ∀ (ys : List (ℚ × FVector)) (t : ATorqueApplier), t.bImpulseApplied = true →
      (run invSqrt ys t).1.bImpulseApplied = true := by
    intro ys
    induction ys with
    | nil => intro t ht; exact ht
    | cons y ys ih =>
      intro t ht
      exact ih _ (ApplyTorque_flag_latched invSqrt y.1 y.2 t ht)
  refine ⟨rfl, ?_, ?_, ?_, fun t dt w ht => ApplyTorque_flag_latched invSqrt dt w t ht⟩
  · simp only [run, hstep, hrest]
  · rw [hstep]
  · simp only [run, hstep]
    exact hkeep xs _ rfl

/-- The constructed actor switched to `ImpulseTorque` and stepped three times: one
impulse `(0, 0, 1000)`, then nothing. -/
theorem impulse_torque_once_witness :
    (run (fun _ => 1) [(1 / 60, ⟨0, 0, 2⟩), (1 / 60, ⟨0, 0, 3⟩), (1 / 60, ⟨0, 0, 4⟩)]
        { construct with TorqueMode := ETorqueApplicationMode.ImpulseTorque }).2 =
      [some (TorqueCall.AddAngularImpulseInRadians
          ((FVector.UpVector.GetSafeNormal (fun _ => 1)).scale 1000)), none, none] :=
  (impulse_torque_once (fun _ => 1)
    { construct with TorqueMode := ETorqueApplicationMode.ImpulseTorque }
    (1 / 60, ⟨0, 0, 2⟩) [(1 / 60, ⟨0, 0, 3⟩), (1 / 60, ⟨0, 0, 4⟩)] rfl rfl).2.1

/-- C4: in `DampedTorque` mode the step emits the torque
`n * TorqueMagnitude - n * dot(w, n) * DampingFactor`, where `n` is the normalized
`TorqueAxis` and `w` the angular velocity read at the step, and leaves the state
unchanged; when `DampingFactor = 1` and `dot(w, n) = TorqueMagnitude`, the emitted torque
is the zero vector. -/
theorem damped_torque_formula (invSqrt : ℚ → ℚ) (s : ATorqueApplier) (dt : ℚ) (w : FVector)
    (hmode : s.TorqueMode = ETorqueApplicationMode.DampedTorque) :
    ApplyTorque invSqrt dt w s =
      (s, some (TorqueCall.AddTorqueInRadians
        (((s.TorqueAxis.GetSafeNormal invSqrt).scale s.TorqueMagnitude).sub
          (((s.TorqueAxis.GetSafeNormal invSqrt).scale
            (FVector.DotProduct w (s.TorqueAxis.GetSafeNormal invSqrt))).scale
              s.DampingFactor)))) ∧
    (s.DampingFactor = 1 →
      FVector.DotProduct w (s.TorqueAxis.GetSafeNormal invSqrt) = s.TorqueMagnitude →
      (ApplyTorque invSqrt dt w s).2 =
        some (TorqueCall.AddTorqueInRadians FVector.ZeroVector)) := by
  have h1 : ApplyTorque invSqrt dt w s =
      (s, some (TorqueCall.AddTorqueInRadians
        (((s.TorqueAxis.GetSafeNormal invSqrt).scale s.TorqueMagnitude).sub
          (((s.TorqueAxis.GetSafeNormal invSqrt).scale
            (FVector.DotProduct w (s.TorqueAxis.GetSafeNormal invSqrt))).scale
              s.DampingFactor)))) := by
    unfold ApplyTorque
    simp only [hmode, FVector.scale, FVector.add, FVector.sub, FVector.neg]
    refine Prod.ext rfl ?_
    simp only [Option.some.injEq, TorqueCall.AddTorqueInRadians.injEq, FVector.mk.injEq]
    refine ⟨?_, ?_, ?_⟩ <;> ring
  refine ⟨h1, ?_⟩
  intro hd hdot
  rw [h1, hd, hdot]
  simp [FVector.scale, FVector.sub, FVector.ZeroVector]

/-- The constructed actor (axis up, magnitude 1000, damping 1) in `DampedTorque` mode with
the body spinning at 1000 rad/s about the axis: the net torque is zero. -/
theorem damped_torque_formula_witness :
    (ApplyTorque (fun _ => 1) (1 / 60) ⟨0, 0, 1000⟩
        { construct with TorqueMode := ETorqueApplicationMode.DampedTorque }).2 =
      some (TorqueCall.AddTorqueInRadians FVector.ZeroVector) :=
  (damped_torque_formula (fun _ => 1)
    { construct with TorqueMode := ETorqueApplicationMode.DampedTorque } (1 / 60)
    ⟨0, 0, 1000⟩ rfl).2 rfl
    (by norm_num [construct, FVector.DotProduct, FVector.GetSafeNormal, FVector.UpVector,
      FVector.SizeSquared])

end ATorqueApplier

namespace AAcceleratingTutorialThreshold

theorem PhaseIndex_range (T : ℚ) : 0 ≤ PhaseIndex T ∧ PhaseIndex T ≤ 5 :=
  Clamp_bounds (FloorToInt (T * 5)) 0 5 (by norm_num)

theorem toIndex_ofIndex (i : Int) (h0 : 0 ≤ i) (h5 : i ≤ 5) : (EPhase.ofIndex i).toIndex = i := by
  unfold EPhase.ofIndex
  split_ifs with h0 h1 h2 h3 h4
  · simp [EPhase.toIndex, h0]
  · simp [EPhase.toIndex, h1]
  · simp [EPhase.toIndex, h2]
  · simp [EPhase.toIndex, h3]
  · simp [EPhase.toIndex, h4]
  · simp only [EPhase.toIndex]; omega

theorem UpdatePhase_CurrentPhase (s : AAcceleratingTutorialThreshold) :
    (UpdatePhase s).1.CurrentPhase = EPhase.ofIndex (PhaseIndex s.Threshold) ∧
    (UpdatePhase s).1.PreviousPhase = EPhase.ofIndex (PhaseIndex s.Threshold) ∧
    (UpdatePhase s).1.Threshold = s.Threshold ∧
    (UpdatePhase s).1.CurrentInterpSpeed = s.CurrentInterpSpeed ∧
    (UpdatePhase s).1.InterpAcceleration = s.InterpAcceleration := by
  unfold UpdatePhase
  by_cases h : EPhase.ofIndex (PhaseIndex s.Threshold) = s.PreviousPhase
  · simp [h]
  · simp [h]

theorem UpdatePhase_broadcast (s : AAcceleratingTutorialThreshold) :
    (UpdatePhase s).2 =
      if EPhase.ofIndex (PhaseIndex s.Threshold) = s.PreviousPhase then none
      else some (EPhase.ofIndex (PhaseIndex s.Threshold)) := by
  unfold UpdatePhase
  by_cases h : EPhase.ofIndex (PhaseIndex s.Threshold) = s.PreviousPhase
  · simp [h]
  · simp [h]

theorem PhaseIndex_eq_clamp_floor (T : ℚ) (h : T * 5 < 2147483648) :
    PhaseIndex T = Clamp (Int.floor (T * 5)) 0 5 := by
  have hlt : Int.floor (T * 5) < 2147483648 := by
    rw [Int.floor_lt]; push_cast; exact h
  unfold PhaseIndex FloorToInt INT_MIN INT_MAX Clamp
  split_ifs <;> omega

theorem PhaseIndex_of_bin (T : ℚ) (k : Int) (h0 : 0 ≤ k) (h4 : k ≤ 4)
    (hlo : (k : ℚ) / 5 ≤ T) (hhi : T < ((k : ℚ) + 1) / 5) : PhaseIndex T = k := by
  have hk : (k : ℚ) ≤ 4 := by exact_mod_cast h4
  have hfloor : Int.floor (T * 5) = k := by
    rw [Int.floor_eq_iff]
    constructor <;> linarith
  rw [PhaseIndex_eq_clamp_floor T (by linarith), hfloor]
  unfold Clamp
  split_ifs <;> omega

theorem PhaseIndex_of_neg (T : ℚ) (h : T < 0) : PhaseIndex T = 0 := by
  have hfloor : Int.floor (T * 5) < 0 := by
    rw [Int.floor_lt]
    push_cast
    linarith
  rw [PhaseIndex_eq_clamp_floor T (by linarith)]
  unfold Clamp
  simp [hfloor]

theorem PhaseIndex_of_one_le (T : ℚ) (h : 1 ≤ T) (hmax : T * 5 < 2147483648) :
    PhaseIndex T = 5 := by
  have hfloor : 5 ≤ Int.floor (T * 5) := by
    rw [Int.le_floor]
    push_cast
    linarith
  rw [PhaseIndex_eq_clamp_floor T hmax]
  unfold Clamp
  split_ifs <;> omega

/-- C5, as stated, fails: at `Threshold = 0.17` the code computes phase index
`floor(0.85) = 0` (`Phase_0`), whereas quantization into `num_phases = 6` bins gives
`clamp(floor(1.02), 0, 5) = 1`. -/
theorem phase_not_six_bins :
    (UpdatePhase { construct with Threshold := 17 / 100 }).1.CurrentPhase = EPhase.Phase_0 ∧
    specPhaseIndex 6 (17 / 100) = 1 ∧
    (UpdatePhase { construct with Threshold := 17 / 100 }).1.CurrentPhase.toIndex
      ≠ specPhaseIndex 6 (17 / 100) := by
  have h1 : PhaseIndex (17 / 100) = 0 :=
    PhaseIndex_of_bin (17 / 100) 0 (by norm_num) (by norm_num) (by norm_num) (by norm_num)
  have h2 : specPhaseIndex 6 (17 / 100) = 1 := by
    have hfloor : Int.floor ((17 / 100 : ℚ) * ((6 : Int) : ℚ)) = 1 := by
      rw [Int.floor_eq_iff]
      constructor <;> norm_num
    unfold specPhaseIndex Clamp
    rw [hfloor]
    norm_num
  have h3 := (UpdatePhase_CurrentPhase { construct with Threshold := 17 / 100 }).1
  simp only [h1] at h3
  refine ⟨by rw [h3]; rfl, h2, ?_⟩
  rw [h3, h2]
  simp [EPhase.ofIndex, EPhase.toIndex]

/-- C5, amended: for every `Threshold` with `Threshold * 5 < 2^31`, so that the floor
fits the `int32` that `FloorToInt` returns, the phase computed by `UpdatePhase` has index
`clamp(floor(Threshold * 5), 0, 5)`, the scale factor being `num_phases - 1 = 5`: a
`Threshold` in `[k/5, (k+1)/5)` with `0 ≤ k ≤ 4` gives phase `k`, a negative one gives
`Phase_0`, and `Phase_5` is reached exactly when `Threshold ≥ 1`. -/
theorem phase_is_floor_of_five_times (s : AAcceleratingTutorialThreshold)
    (hmax : s.Threshold * 5 < 2147483648) :
    (UpdatePhase s).1.CurrentPhase.toIndex = Clamp (Int.floor (s.Threshold * 5)) 0 5 ∧
    (∀ k : Int, 0 ≤ k → k ≤ 4 → (k : ℚ) / 5 ≤ s.Threshold → s.Threshold < ((k : ℚ) + 1) / 5 →
      (UpdatePhase s).1.CurrentPhase.toIndex = k) ∧
    (s.Threshold < 0 → (UpdatePhase s).1.CurrentPhase = EPhase.Phase_0) ∧
    ((UpdatePhase s).1.CurrentPhase = EPhase.Phase_5 ↔ 1 ≤ s.Threshold) := by
  have hc := (UpdatePhase_CurrentPhase s).1
  have hr := PhaseIndex_range s.Threshold
  have hidx : (UpdatePhase s).1.CurrentPhase.toIndex = PhaseIndex s.Threshold := by
    rw [hc]; exact toIndex_ofIndex _ hr.1 hr.2
  refine ⟨by rw [hidx]; exact PhaseIndex_eq_clamp_floor s.Threshold hmax, ?_, ?_, ?_⟩
  · intro k h0 h4 hlo hhi
    rw [hidx]; exact PhaseIndex_of_bin s.Threshold k h0 h4 hlo hhi
  · intro hneg
    rw [hc, PhaseIndex_of_neg s.Threshold hneg]; rfl
  · constructor
    · intro h5
      by_contra hlt
      push_neg at hlt
      have hi : (UpdatePhase s).1.CurrentPhase.toIndex = 5 := by rw [h5]; rfl
      rw [hidx] at hi
      by_cases hneg : s.Threshold < 0
      · rw [PhaseIndex_of_neg s.Threshold hneg] at hi; omega
      · push_neg at hneg
        have hfl : Int.floor (s.Threshold * 5) < 5 := by
          rw [Int.floor_lt]; push_cast; linarith
        have hfl0 : 0 ≤ Int.floor (s.Threshold * 5) := by
          rw [Int.le_floor]; push_cast; linarith
        rw [PhaseIndex_eq_clamp_floor s.Threshold hmax] at hi
        unfold Clamp at hi
        split_ifs at hi <;> omega
    · intro h1
      rw [hc, PhaseIndex_of_one_le s.Threshold h1 hmax]; rfl

/-- The constructed actor with `Threshold` set to `0.5` and to `1`: the phases are
`Phase_2` (index `floor(2.5) = 2`) and `Phase_5`. -/
theorem phase_is_floor_of_five_times_witness :
    (UpdatePhase { construct with Threshold := 1 / 2 }).1.CurrentPhase.toIndex = 2 ∧
    (UpdatePhase { construct with Threshold := 1 }).1.CurrentPhase = EPhase.Phase_5 :=
  ⟨(phase_is_floor_of_five_times { construct with Threshold := 1 / 2 } (by norm_num)).2.1 2
      (by norm_num) (by norm_num) (by norm_num) (by norm_num),
    (phase_is_floor_of_five_times { construct with Threshold := 1 } (by norm_num)).2.2.2.mpr
      (le_refl 1)⟩

theorem evalPhases_append (ts us : List ℚ) :
    ∀ s : AAcceleratingTutorialThreshold,
      (evalPhases (ts ++ us) s).1 = (evalPhases us (evalPhases ts s).1).1 := by
  induction ts with
  | nil => intro s; rfl
  | cons t ts ih => intro s; simp only [List.cons_append, evalPhases]; exact ih _

theorem evalPhases_cons (t : ℚ) (ts : List ℚ) (s : AAcceleratingTutorialThreshold) :
    (evalPhases (t :: ts) s).2 =
      (UpdatePhase (withThreshold t s)).2 ::
        (evalPhases ts (UpdatePhase (withThreshold t s)).1).2 := rfl

theorem UpdatePhase_at (t : ℚ) (p : EPhase) (s : AAcceleratingTutorialThreshold)
    (hp : s.PreviousPhase = p) :
    ((UpdatePhase (withThreshold t s)).2 =
      if EPhase.ofIndex (PhaseIndex t) = p then none else some (EPhase.ofIndex (PhaseIndex t))) ∧
    (UpdatePhase (withThreshold t s)).1.PreviousPhase = EPhase.ofIndex (PhaseIndex t) := by
  subst hp
  exact ⟨UpdatePhase_broadcast (withThreshold t s),
    (UpdatePhase_CurrentPhase (withThreshold t s)).2.1⟩

theorem evalPhases_same_bin (p : EPhase) (ts : List ℚ)
    (hts : ∀ x ∈ ts, EPhase.ofIndex (PhaseIndex x) = p) :
    ∀ s : AAcceleratingTutorialThreshold, s.PreviousPhase = p →
      (evalPhases ts s).2 = List.replicate ts.length none := by
  induction ts with
  | nil => intro s _; rfl
  | cons t ts ih =>
    intro s hs
    have ht : EPhase.ofIndex (PhaseIndex t) = p := hts t (List.mem_cons_self t ts)
    have h := UpdatePhase_at t p s hs
    rw [if_pos ht] at h
    rw [evalPhases_cons, h.1, ih (fun x hx => hts x (List.mem_cons_of_mem t hx)) _ (h.2.trans ht)]
    rfl

theorem Tick_fields (dt : ℚ) (s : AAcceleratingTutorialThreshold) :
    (Tick dt s).1.CurrentInterpSpeed = s.CurrentInterpSpeed + s.InterpAcceleration * dt ∧
    (Tick dt s).1.InterpAcceleration = s.InterpAcceleration ∧
    (Tick dt s).1.Threshold =
      FInterpTo s.Threshold 1 dt (s.CurrentInterpSpeed + s.InterpAcceleration * dt) ∧
    (Tick dt s).1.CurrentPhase = EPhase.ofIndex (PhaseIndex (Tick dt s).1.Threshold) ∧
    (Tick dt s).1.PreviousPhase = (Tick dt s).1.CurrentPhase ∧
    ((Tick dt s).2 =
      if EPhase.ofIndex (PhaseIndex (Tick dt s).1.Threshold) = s.PreviousPhase then none
      else some (EPhase.ofIndex (PhaseIndex (Tick dt s).1.Threshold))) := by
  have h := UpdatePhase_CurrentPhase
    { s with
      CurrentInterpSpeed := s.CurrentInterpSpeed + s.InterpAcceleration * dt
      Threshold := FInterpTo s.Threshold 1 dt (s.CurrentInterpSpeed + s.InterpAcceleration * dt) }
  have hb := UpdatePhase_broadcast
    { s with
      CurrentInterpSpeed := s.CurrentInterpSpeed + s.InterpAcceleration * dt
      Threshold := FInterpTo s.Threshold 1 dt (s.CurrentInterpSpeed + s.InterpAcceleration * dt) }
  have hT : (Tick dt s).1.Threshold =
      FInterpTo s.Threshold 1 dt (s.CurrentInterpSpeed + s.InterpAcceleration * dt) := h.2.2.1
  refine ⟨h.2.2.2.1, h.2.2.2.2, hT, ?_, ?_, ?_⟩
  · rw [hT]; exact h.1
  · exact h.2.1.trans h.1.symm
  · rw [hT]; exact hb

/-- C6: an evaluation of `UpdatePhase` broadcasts on `OnPhaseChanged` exactly when the
phase it computes differs from the remembered `PreviousPhase`, the broadcast carries the
new phase, and afterwards `PreviousPhase = CurrentPhase`.  In a sequence of evaluations
the remembered phase is `Phase_0` at the first one (constructed state) and the phase
computed by the previous evaluation at every later one; `Tick` broadcasts by the same
rule, on the threshold it has just interpolated.  For the trajectory `0`, `0.21`, then
any values in `[0.2, 0.4)`, the only broadcast is `Phase_1`, at the second evaluation. -/
theorem phase_change_notification (s : AAcceleratingTutorialThreshold) (pre : List ℚ)
    (t u dt : ℚ) (rest : List ℚ) (hrest : ∀ x ∈ rest, 1 / 5 ≤ x ∧ x < 2 / 5) :
    ((UpdatePhase s).2 =
      if EPhase.ofIndex (PhaseIndex s.Threshold) = s.PreviousPhase then none
      else some (EPhase.ofIndex (PhaseIndex s.Threshold))) ∧
    (UpdatePhase s).1.CurrentPhase = EPhase.ofIndex (PhaseIndex s.Threshold) ∧
    (UpdatePhase s).1.PreviousPhase = (UpdatePhase s).1.CurrentPhase ∧
    ((UpdatePhase (withThreshold t construct)).2 =
      if EPhase.ofIndex (PhaseIndex t) = EPhase.Phase_0 then none
      else some (EPhase.ofIndex (PhaseIndex t))) ∧
    ((UpdatePhase (withThreshold u (evalPhases (pre ++ [t]) s).1)).2 =
      if EPhase.ofIndex (PhaseIndex u) = EPhase.ofIndex (PhaseIndex t) then none
      else some (EPhase.ofIndex (PhaseIndex u))) ∧
    ((Tick dt s).2 =
      if EPhase.ofIndex (PhaseIndex (Tick dt s).1.Threshold) = s.PreviousPhase then none
      else some (EPhase.ofIndex (PhaseIndex (Tick dt s).1.Threshold))) ∧
    (Tick dt s).1.PreviousPhase = (Tick dt s).1.CurrentPhase ∧
    (evalPhases (0 :: 21 / 100 :: rest) construct).2 =
      none :: some EPhase.Phase_1 :: List.replicate rest.length none := by
  have hc := UpdatePhase_CurrentPhase s
  refine ⟨UpdatePhase_broadcast s, hc.1, by rw [hc.1, hc.2.1], ?_, ?_,
    (Tick_fields dt s).2.2.2.2.2, (Tick_fields dt s).2.2.2.2.1, ?_⟩
  · exact (UpdatePhase_at t EPhase.Phase_0 construct rfl).1
  · have hprev : (evalPhases (pre ++ [t]) s).1.PreviousPhase = EPhase.ofIndex (PhaseIndex t) := by
      rw [evalPhases_append]
      exact (UpdatePhase_at t _ (evalPhases pre s).1 rfl).2
    exact (UpdatePhase_at u _ _ hprev).1
  · have h0 : PhaseIndex 0 = 0 :=
      PhaseIndex_of_bin 0 0 (by norm_num) (by norm_num) (by norm_num) (by norm_num)
    have h1 : PhaseIndex (21 / 100) = 1 :=
      PhaseIndex_of_bin (21 / 100) 1 (by norm_num) (by norm_num) (by norm_num) (by norm_num)
    have e0 := UpdatePhase_at 0 EPhase.Phase_0 construct rfl
    rw [h0] at e0
    have e1 := UpdatePhase_at (21 / 100) _ _ e0.2
    rw [h1] at e1
    have hrest2 : ∀ x ∈ rest, EPhase.ofIndex (PhaseIndex x) = EPhase.ofIndex 1 := by
      intro x hx
      have hx2 := hrest x hx
      rw [PhaseIndex_of_bin x 1 (by norm_num) (by norm_num) (by push_cast; linarith [hx2.1])
        (by push_cast; linarith [hx2.2])]
    rw [evalPhases_cons, evalPhases_cons, e0.1, e1.1,
      evalPhases_same_bin (EPhase.ofIndex 1) rest hrest2 _ e1.2]
    simp [EPhase.ofIndex]

/-- The constructed actor evaluated at thresholds `0, 0.21, 0.3, 0.39, 0.2`: one
broadcast, `Phase_1`, at the second evaluation. -/
theorem phase_change_notification_witness :
    (∀ x ∈ [(3 / 10 : ℚ), 39 / 100, 1 / 5], 1 / 5 ≤ x ∧ x < 2 / 5) ∧
    (evalPhases [0, 21 / 100, 3 / 10, 39 / 100, 1 / 5] construct).2 =
      [none, some EPhase.Phase_1, none, none, none] :=
  ⟨by norm_num,
    (phase_change_notification construct [] 0 0 0 [3 / 10, 39 / 100, 1 / 5]
      (by norm_num)).2.2.2.2.2.2.2⟩

theorem run_append_single (dts : List ℚ) (dt : ℚ) :
    ∀ s : AAcceleratingTutorialThreshold,
      (run (dts ++ [dt]) s).1 = (Tick dt (run dts s).1).1 := by
  induction dts with
  | nil => intro s; rfl
  | cons d ds ih => intro s; simp only [List.cons_append, run]; exact ih _

theorem run_speed (dts : List ℚ) (hdts : ∀ d ∈ dts, 0 ≤ d) :
    ∀ s : AAcceleratingTutorialThreshold, 0 ≤ s.InterpAcceleration →
      (run dts s).1.InterpAcceleration = s.InterpAcceleration ∧
      s.CurrentInterpSpeed ≤ (run dts s).1.CurrentInterpSpeed ∧
      (s.InterpAcceleration = 0 → (run dts s).1.CurrentInterpSpeed = s.CurrentInterpSpeed) := by
  induction dts with
  | nil => intro s _; exact ⟨rfl, le_refl _, fun _ => rfl⟩
  | cons d ds ih =>
    intro s hacc
    have hd : 0 ≤ d := hdts d (List.mem_cons_self d ds)
    have hf := Tick_fields d s
    have h := ih (fun x hx => hdts x (List.mem_cons_of_mem d hx)) (Tick d s).1
      (by rw [hf.2.1]; exact hacc)
    rw [hf.1, hf.2.1] at h
    have hstep : (run (d :: ds) s).1 = (run ds (Tick d s).1).1 := rfl
    rw [hstep]
    refine ⟨h.1, ?_, ?_⟩
    · have := mul_nonneg hacc hd
      linarith [h.2.1]
    · intro h0
      rw [h.2.2 h0, h0]
      ring

/-- C9: for `DeltaTime ≥ 0` and `InterpAcceleration ≥ 0`, one `Tick` sets
`CurrentInterpSpeed` to its old value plus `InterpAcceleration * DeltaTime`, which is not
below the old value; over any sequence of `Tick` calls with non-negative elapsed times the
speed never decreases from one call to the next, stays non-negative when it starts
non-negative (as in the constructed state, where it is `0.1`), and is constant when
`InterpAcceleration = 0`. -/
theorem speed_non_decreasing (s : AAcceleratingTutorialThreshold) (dts : List ℚ) (dt : ℚ)
    (hdts : ∀ d ∈ dts, 0 ≤ d) (hdt : 0 ≤ dt) (hacc : 0 ≤ s.InterpAcceleration) :
    (Tick dt s).1.CurrentInterpSpeed = s.CurrentInterpSpeed + s.InterpAcceleration * dt ∧
    s.CurrentInterpSpeed ≤ (Tick dt s).1.CurrentInterpSpeed ∧
    (run dts s).1.CurrentInterpSpeed ≤ (run (dts ++ [dt]) s).1.CurrentInterpSpeed ∧
    s.CurrentInterpSpeed ≤ (run dts s).1.CurrentInterpSpeed ∧
    (0 ≤ s.CurrentInterpSpeed → 0 ≤ (run dts s).1.CurrentInterpSpeed) ∧
    (s.InterpAcceleration = 0 → (run dts s).1.CurrentInterpSpeed = s.CurrentInterpSpeed) ∧
    0 ≤ construct.CurrentInterpSpeed ∧ 0 ≤ construct.InterpAcceleration := by
  have hf := Tick_fields dt s
  have hr := run_speed dts hdts s hacc
  have hm := mul_nonneg hacc hdt
  refine ⟨hf.1, by rw [hf.1]; linarith, ?_, hr.2.1, fun h0 => le_trans h0 hr.2.1, hr.2.2,
    by norm_num [construct], by norm_num [construct]⟩
  rw [run_append_single, (Tick_fields dt (run dts s).1).1, hr.1]
  linarith

/-- The constructed actor ticked at `0.5 s`, `0 s`, `1 s` and then `2 s`: the speed after
the fourth call is not below the speed after the third, and is not below the initial
speed. -/
theorem speed_non_decreasing_witness :
    (∀ d ∈ [(1 / 2 : ℚ), 0, 1], 0 ≤ d) ∧ (0 : ℚ) ≤ 2 ∧ 0 ≤ construct.InterpAcceleration ∧
    (run [1 / 2, 0, 1] construct).1.CurrentInterpSpeed
      ≤ (run ([1 / 2, 0, 1] ++ [2]) construct).1.CurrentInterpSpeed ∧
    construct.CurrentInterpSpeed ≤ (run [1 / 2, 0, 1] construct).1.CurrentInterpSpeed :=
  ⟨by norm_num, by norm_num, by norm_num [construct],
    (speed_non_decreasing construct [1 / 2, 0, 1] 2 (by norm_num) (by norm_num)
      (by norm_num [construct])).2.2.1,
    (speed_non_decreasing construct [1 / 2, 0, 1] 2 (by norm_num) (by norm_num)
      (by norm_num [construct])).2.2.2.1⟩

theorem FInterpTo_at_target (Target dt speed : ℚ) : FInterpTo Target Target dt speed = Target := by
  unfold FInterpTo
  by_cases h1 : speed ≤ 0
  · simp [h1]
  · have h2 : Square (Target - Target) < SMALL_NUMBER := by norm_num [Square, SMALL_NUMBER]
    simp [h1, h2]

theorem Tick_saturated (dt : ℚ) (s : AAcceleratingTutorialThreshold) (hT : s.Threshold = 1) :
    (Tick dt s).1.Threshold = 1 ∧ (Tick dt s).1.CurrentPhase = EPhase.Phase_5 ∧
    (Tick dt s).1.PreviousPhase = EPhase.Phase_5 ∧
    (s.PreviousPhase = EPhase.Phase_5 → (Tick dt s).2 = none) := by
  have hf := Tick_fields dt s
  have h1 : (Tick dt s).1.Threshold = 1 := by
    rw [hf.2.2.1, hT]; exact FInterpTo_at_target 1 dt _
  have h5 : EPhase.ofIndex (PhaseIndex (Tick dt s).1.Threshold) = EPhase.Phase_5 := by
    rw [h1, PhaseIndex_of_one_le 1 (le_refl 1) (by norm_num)]; rfl
  have hc : (Tick dt s).1.CurrentPhase = EPhase.Phase_5 := hf.2.2.2.1.trans h5
  refine ⟨h1, hc, hf.2.2.2.2.1.trans hc, ?_⟩
  intro hp
  rw [hf.2.2.2.2.2, h5, hp]
  simp

/-- C10: at `Threshold = 1.0`, `UpdatePhase` yields `Phase_5` (index `num_phases - 1`);
every further `Tick`, whatever its `DeltaTime`, leaves `Threshold` at `1.0` and the phase
at `Phase_5`, and once `PreviousPhase` is `Phase_5` no `Tick` of any later sequence
broadcasts a phase change. -/
theorem threshold_saturates (s : AAcceleratingTutorialThreshold) (dt : ℚ) (dts : List ℚ)
    (hT : s.Threshold = 1) :
    (UpdatePhase s).1.CurrentPhase = EPhase.Phase_5 ∧
    (UpdatePhase s).1.CurrentPhase.toIndex = 6 - 1 ∧
    (Tick dt s).1.Threshold = 1 ∧
    (Tick dt s).1.CurrentPhase = EPhase.Phase_5 ∧
    (s.PreviousPhase = EPhase.Phase_5 → (Tick dt s).2 = none) ∧
    (run dts s).1.Threshold = 1 ∧
    (s.PreviousPhase = EPhase.Phase_5 → (run dts s).2 = List.replicate dts.length none) := by
  have hu : (UpdatePhase s).1.CurrentPhase = EPhase.Phase_5 := by
    rw [(UpdatePhase_CurrentPhase s).1, hT, PhaseIndex_of_one_le 1 (le_refl 1) (by norm_num)]; rfl
  have ht := Tick_saturated dt s hT
  have hrun : ∀ (ds : List ℚ) (t : AAcceleratingTutorialThreshold), t.Threshold = 1 →
      (run ds t).1.Threshold = 1 ∧
      (t.PreviousPhase = EPhase.Phase_5 → (run ds t).2 = List.replicate ds.length none) := by
    intro ds
    induction ds with
    | nil => intro t h1; exact ⟨h1, fun _ => rfl⟩
    | cons d ds ih =>
      intro t h1
      have hd := Tick_saturated d t h1
      have hi := ih (Tick d t).1 hd.1
      have e1 : (run (d :: ds) t).1 = (run ds (Tick d t).1).1 := rfl
      have e2 : (run (d :: ds) t).2 = (Tick d t).2 :: (run ds (Tick d t).1).2 := rfl
      refine ⟨by rw [e1]; exact hi.1, ?_⟩
      intro hp
      rw [e2, hd.2.2.2 hp, hi.2 hd.2.2.1]
      rfl
  refine ⟨hu, by rw [hu]; rfl, ht.1, ht.2.1, ht.2.2.2, (hrun dts s hT).1, (hrun dts s hT).2⟩

/-- A saturated actor (`Threshold = 1`, both phases `Phase_5`) ticked three times at
60 Hz: the threshold stays `1` and nothing is broadcast. -/
theorem threshold_saturates_witness :
    (run [1 / 60, 1 / 60, 1 / 60]
        { construct with
          Threshold := 1
          CurrentPhase := EPhase.Phase_5
          PreviousPhase := EPhase.Phase_5 }).1.Threshold = 1 ∧
    (run [1 / 60, 1 / 60, 1 / 60]
        { construct with
          Threshold := 1
          CurrentPhase := EPhase.Phase_5
          PreviousPhase := EPhase.Phase_5 }).2 = [none, none, none] :=
  ⟨(threshold_saturates
      { construct with
        Threshold := 1
        CurrentPhase := EPhase.Phase_5
        PreviousPhase := EPhase.Phase_5 } 0 [1 / 60, 1 / 60, 1 / 60] rfl).2.2.2.2.2.1,
    (threshold_saturates
      { construct with
        Threshold := 1
        CurrentPhase := EPhase.Phase_5
        PreviousPhase := EPhase.Phase_5 } 0 [1 / 60, 1 / 60, 1 / 60] rfl).2.2.2.2.2.2 rfl⟩

theorem FInterpTo_toward (T dt speed : ℚ) (hT1 : T ≤ 1) :
    T ≤ FInterpTo T 1 dt speed ∧ FInterpTo T 1 dt speed ≤ 1 := by
  have hc := Clamp_bounds (dt * speed) (0 : ℚ) 1 (by norm_num)
  have hd : 0 ≤ 1 - T := by linarith
  have hm := mul_nonneg hd hc.1
  have hm1 : (1 - T) * Clamp (dt * speed) 0 1 ≤ (1 - T) * 1 := mul_le_mul_of_nonneg_left hc.2 hd
  unfold FInterpTo
  by_cases h1 : speed ≤ 0
  · simp [h1, hT1]
  · by_cases h2 : Square (1 - T) < SMALL_NUMBER
    · simp [h1, h2, hT1]
    · simp only [h1, h2, if_false]
      constructor <;> linarith

theorem TickN_invariant (dt : ℚ) (hdt : 0 ≤ dt) (s : AAcceleratingTutorialThreshold)
    (hT1 : s.Threshold ≤ 1) (hacc : 0 ≤ s.InterpAcceleration) (n : Nat) :
    (TickN dt n s).Threshold ≤ 1 ∧ s.Threshold ≤ (TickN dt n s).Threshold ∧
    (TickN dt n s).InterpAcceleration = s.InterpAcceleration ∧
    s.CurrentInterpSpeed ≤ (TickN dt n s).CurrentInterpSpeed := by
  induction n with
  | zero => exact ⟨hT1, le_refl _, rfl, le_refl _⟩
  | succ n ih =>
    have hf := Tick_fields dt (TickN dt n s)
    have ht := FInterpTo_toward (TickN dt n s).Threshold dt
      ((TickN dt n s).CurrentInterpSpeed + (TickN dt n s).InterpAcceleration * dt) ih.1
    have e : TickN dt (n + 1) s = (Tick dt (TickN dt n s)).1 := rfl
    rw [e, hf.1, hf.2.1, hf.2.2.1]
    refine ⟨ht.2, le_trans ih.2.1 ht.1, ih.2.2.1, ?_⟩
    have hm : 0 ≤ (TickN dt n s).InterpAcceleration * dt := by
      rw [ih.2.2.1]; exact mul_nonneg hacc hdt
    linarith [ih.2.2.2]

theorem TickN_stays_at_one (dt : ℚ) (s : AAcceleratingTutorialThreshold) (N : Nat)
    (hN : (TickN dt N s).Threshold = 1) : ∀ n, N ≤ n → (TickN dt n s).Threshold = 1 := by
  intro n hn
  induction n, hn using Nat.le_induction with
  | base => exact hN
  | succ n _ ih => exact (Tick_saturated dt (TickN dt n s) ih).1

/-- C7, amended: with target `1.0`, for `Threshold` in `[0, 1]`, `DeltaTime ≥ 0`,
`InterpAcceleration ≥ 0` and `CurrentInterpSpeed > 0`, one `Tick` gives a new `Threshold`
between the old one and `1.0`.  Hence under repeated `Tick(dt)` calls the sequence of
thresholds is non-decreasing, never below its start and never above `1.0`, and once it
equals `1.0` it stays there.  That the sequence reaches or approaches `1.0` is not part
of the statement. -/
theorem threshold_monotone_bounded (s : AAcceleratingTutorialThreshold) (dt : ℚ)
    (hT0 : 0 ≤ s.Threshold) (hT1 : s.Threshold ≤ 1) (hdt : 0 ≤ dt)
    (hacc : 0 ≤ s.InterpAcceleration) (hspeed : 0 < s.CurrentInterpSpeed) :
    s.Threshold ≤ (Tick dt s).1.Threshold ∧ (Tick dt s).1.Threshold ≤ 1 ∧
    (∀ n : Nat, (TickN dt n s).Threshold ≤ (TickN dt (n + 1) s).Threshold ∧
      (TickN dt (n + 1) s).Threshold ≤ 1) ∧
    (∀ n : Nat, 0 ≤ (TickN dt n s).Threshold ∧ 0 < (TickN dt n s).CurrentInterpSpeed) ∧
    (∀ N : Nat, (TickN dt N s).Threshold = 1 →
      ∀ n : Nat, N ≤ n → (TickN dt n s).Threshold = 1) := by
  have hstep : ∀ t : AAcceleratingTutorialThreshold, t.Threshold ≤ 1 →
      t.Threshold ≤ (Tick dt t).1.Threshold ∧ (Tick dt t).1.Threshold ≤ 1 := by
    intro t ht
    rw [(Tick_fields dt t).2.2.1]
    exact FInterpTo_toward t.Threshold dt _ ht
  refine ⟨(hstep s hT1).1, (hstep s hT1).2, ?_, ?_, ?_⟩
  · intro n
    exact hstep (TickN dt n s) (TickN_invariant dt hdt s hT1 hacc n).1
  · intro n
    have hinv := TickN_invariant dt hdt s hT1 hacc n
    exact ⟨le_trans hT0 hinv.2.1, lt_of_lt_of_le hspeed hinv.2.2.2⟩
  · intro N hN
    exact TickN_stays_at_one dt s N hN

/-- The constructed actor (`Threshold = 0`, speed `0.1`, acceleration `0.3`) ticked at
60 Hz: the first threshold lies between `0` and `1`, and so does the second, above the
first. -/
theorem threshold_monotone_bounded_witness :
    (0 : ℚ) ≤ construct.Threshold ∧ construct.Threshold ≤ 1 ∧ (0 : ℚ) ≤ 1 / 60 ∧
    0 ≤ construct.InterpAcceleration ∧ 0 < construct.CurrentInterpSpeed ∧
    construct.Threshold ≤ (Tick (1 / 60) construct).1.Threshold ∧
    (Tick (1 / 60) construct).1.Threshold ≤ 1 ∧
    (TickN (1 / 60) 1 construct).Threshold ≤ (TickN (1 / 60) 2 construct).Threshold :=
  ⟨by norm_num [construct], by norm_num [construct], by norm_num, by norm_num [construct],
    by norm_num [construct],
    (threshold_monotone_bounded construct (1 / 60) (by norm_num [construct])
      (by norm_num [construct]) (by norm_num) (by norm_num [construct])
      (by norm_num [construct])).1,
    (threshold_monotone_bounded construct (1 / 60) (by norm_num [construct])
      (by norm_num [construct]) (by norm_num) (by norm_num [construct])
      (by norm_num [construct])).2.1,
    ((threshold_monotone_bounded construct (1 / 60) (by norm_num [construct])
      (by norm_num [construct]) (by norm_num) (by norm_num [construct])
      (by norm_num [construct])).2.2.1 1).1⟩

end AAcceleratingTutorialThreshold

namespace AAcceleratedForceApplier

end AAcceleratedForceApplier

/-! ## Binary32: rounding certificates and the claims that depend on rounding -/

namespace Binary32

theorem roundHalfEven_of_near (y : ℚ) (m : Int) (hlo : (m : ℚ) - 1 / 2 < y)
    (hhi : y < (m : ℚ) + 1 / 2) : roundHalfEven y = m := by
  unfold roundHalfEven
  by_cases hym : (m : ℚ) ≤ y
  · have hf : Int.floor y = m := by
      rw [Int.floor_eq_iff]; constructor <;> linarith
    rw [hf, if_pos (by linarith)]
  · push_neg at hym
    have hf : Int.floor y = m - 1 := by
      rw [Int.floor_eq_iff]; push_cast; constructor <;> linarith
    rw [hf]
    push_cast
    rw [if_neg (by linarith), if_pos (by linarith)]
    ring

theorem roundHalfEven_of_tie (y : ℚ) (m : Int) (heven : m % 2 = 0)
    (h : y = (m : ℚ) + 1 / 2 ∨ y = (m : ℚ) - 1 / 2) : roundHalfEven y = m := by
  unfold roundHalfEven
  rcases h with h | h
  · have hf : Int.floor y = m := by
      rw [Int.floor_eq_iff]; constructor <;> linarith
    rw [hf, if_neg (by linarith), if_neg (by linarith), if_pos heven]
  · have hf : Int.floor y = m - 1 := by
      rw [Int.floor_eq_iff]; push_cast; constructor <;> linarith
    rw [hf]
    push_cast
    rw [if_neg (by linarith), if_neg (by linarith), if_neg (by omega)]
    ring

theorem ulpExponent_of_pos (x : ℚ) (e : Int) (hlo : (2 : ℚ) ^ e ≤ x)
    (hhi : x < (2 : ℚ) ^ (e + 1)) : ulpExponent x = max e (-126) - 23 := by
  have hpos : 0 < x := lt_of_lt_of_le (zpow_pos (by norm_num) e) hlo
  have h1 : e ≤ Int.log 2 x := by
    rw [← Int.zpow_le_iff_le_log (by norm_num) hpos]
    exact_mod_cast hlo
  have h2 : Int.log 2 x < e + 1 := by
    rw [← Int.lt_zpow_iff_log_lt (by norm_num) hpos]
    exact_mod_cast hhi
  unfold ulpExponent
  rw [abs_of_pos hpos]
  have : Int.log 2 x = e := by omega
  rw [this]

theorem round32_zero : round32 0 = F32.finite 0 := by
  have h : roundHalfEven 0 = 0 := roundHalfEven_of_near 0 0 (by norm_num) (by norm_num)
  unfold round32
  simp only [zero_div, h, Int.cast_zero, zero_mul, abs_zero]
  rw [if_neg (by norm_num [maxFinite])]

/-- Certificate for a positive exact result: with `2^e ≤ x < 2^(e+1)`, `q` the exponent
of the last bit and `m` the rounded significand, `round32 x` is `m * 2^q` when that does
not exceed `maxFinite`. -/
theorem round32_of_pos (x r : ℚ) (e q m : Int) (hlo : (2 : ℚ) ^ e ≤ x)
    (hhi : x < (2 : ℚ) ^ (e + 1)) (hq : q = max e (-126) - 23)
    (hm : roundHalfEven (x / 2 ^ q) = m) (hr : r = (m : ℚ) * 2 ^ q) (h0 : 0 ≤ r)
    (hmax : r ≤ maxFinite) : round32 x = F32.finite r := by
  unfold round32
  rw [ulpExponent_of_pos x e hlo hhi, ← hq, hm, ← hr, abs_of_nonneg h0, if_neg (not_lt.mpr hmax)]

theorem round32_overflow (x r : ℚ) (e q m : Int) (hlo : (2 : ℚ) ^ e ≤ x)
    (hhi : x < (2 : ℚ) ^ (e + 1)) (hq : q = max e (-126) - 23)
    (hm : roundHalfEven (x / 2 ^ q) = m) (hr : r = (m : ℚ) * 2 ^ q)
    (hmax : maxFinite < r) : round32 x = F32.inf false := by
  have hpos : 0 < x := lt_of_lt_of_le (zpow_pos (by norm_num) e) hlo
  have h0 : 0 ≤ r := le_trans (by norm_num [maxFinite]) (le_of_lt hmax)
  unfold round32
  rw [ulpExponent_of_pos x e hlo hhi, ← hq, hm, ← hr, abs_of_nonneg h0, if_pos hmax]
  simp [not_lt.mpr (le_of_lt hpos)]

theorem round32_one : round32 1 = F32.finite 1 :=
  round32_of_pos _ _ 0 (-23) 8388608 (by norm_num) (by norm_num) (by decide)
    (roundHalfEven_of_near _ _ (by norm_num) (by norm_num)) (by norm_num) (by norm_num)
    (by norm_num [maxFinite])

theorem SMALL_NUMBER_value : SMALL_NUMBER = F32.finite (11258999 / 1125899906842624) :=
  round32_of_pos _ _ (-27) (-50) 11258999 (by norm_num) (by norm_num) (by decide)
    (roundHalfEven_of_near _ _ (by norm_num) (by norm_num)) (by norm_num) (by norm_num)
    (by norm_num [maxFinite])

theorem mul_zero_finite (q : ℚ) : (F32.finite 0).mul (F32.finite q) = F32.finite 0 := by
  show round32 (0 * q) = F32.finite 0
  rw [zero_mul]; exact round32_zero

theorem mul_finite_zero (q : ℚ) : (F32.finite q).mul (F32.finite 0) = F32.finite 0 := by
  show round32 (q * 0) = F32.finite 0
  rw [mul_zero]; exact round32_zero

theorem add_zero_zero : (F32.finite 0).add (F32.finite 0) = F32.finite 0 := by
  show round32 (0 + 0) = F32.finite 0
  rw [add_zero]; exact round32_zero

theorem scale_zero_finite (q : ℚ) :
    FVector.ZeroVector.scale (F32.finite q) = FVector.ZeroVector := by
  simp only [FVector.scale, FVector.ZeroVector, mul_zero_finite]

theorem SizeSquared_zero : FVector.ZeroVector.SizeSquared = F32.finite 0 := by
  simp only [FVector.SizeSquared, FVector.ZeroVector, mul_zero_finite, add_zero_zero]

theorem GetSafeNormal_zero_binary32 (invSqrt : F32 → F32) :
    FVector.GetSafeNormal invSqrt FVector.ZeroVector = FVector.ZeroVector := by
  unfold FVector.GetSafeNormal
  rw [SizeSquared_zero, SMALL_NUMBER_value]
  have h1 : (F32.finite 0).eq (F32.finite 1) = false := by
    simp [F32.eq]
  have h2 : (F32.finite 0).lt (F32.finite (11258999 / 1125899906842624)) = true := by
    simp only [F32.lt, decide_eq_true_eq]; norm_num
  simp [h1, h2]

theorem Clamp_finite_bounds (X : F32) (a b : ℚ) :
    ∃ q : ℚ, Clamp X (F32.finite a) (F32.finite b) = F32.finite q := by
  unfold Clamp
  by_cases h1 : X.lt (F32.finite a) = true
  · exact ⟨a, by simp [h1]⟩
  · by_cases h2 : X.lt (F32.finite b) = true
    · cases X with
      | finite x => exact ⟨x, by simp [h1, h2]⟩
      | inf s =>
        cases s
        · simp [F32.lt] at h2
        · simp [F32.lt] at h1
      | nan => simp [F32.lt] at h2
    · exact ⟨b, by simp [h1, h2]⟩

namespace AAcceleratedForceApplier

theorem ApplyPhysicsForce_continuous_binary32 (invSqrt : F32 → F32) (dt : F32)
    (s : AAcceleratedForceApplier) (hmode : s.ForceMode = EForceMode.ContinuousForce) :
    ApplyPhysicsForce invSqrt dt s =
      ({ s with
          CurrentForceMagnitude := Clamp (s.CurrentForceMagnitude.add (s.ForceMagnitude.mul dt)) (F32.finite 0) (s.ForceMagnitude.mul (F32.finite 10)) },
        ForceCall.AddForce ((s.ForceDirection.GetSafeNormal invSqrt).scale
          (Clamp (s.CurrentForceMagnitude.add (s.ForceMagnitude.mul dt)) (F32.finite 0)
            (s.ForceMagnitude.mul (F32.finite 10))))) := by
  unfold ApplyPhysicsForce
  simp only [hmode]

end AAcceleratedForceApplier

namespace AAcceleratedForceApplier

end AAcceleratedForceApplier

/-- C8, as stated, fails in binary32: with a zero `ForceDirection` and
`ForceMagnitude = 2^126`, one `ContinuousForce` step of `10` s overflows
`CurrentForceMagnitude` and its clamp bound `ForceMagnitude * 10` to `+Inf`, and the force
emitted is `0 * Inf`, NaN in every component. -/
theorem zero_direction_emits_nan :
    round32 (2 ^ 126) = F32.finite (2 ^ 126) ∧ round32 10 = F32.finite 10 ∧
    (AAcceleratedForceApplier.ApplyPhysicsForce (fun _ => F32.finite 1) (F32.finite 10)
        { AAcceleratedForceApplier.construct with
          ForceDirection := FVector.ZeroVector
          ForceMagnitude := F32.finite (2 ^ 126) }).1.CurrentForceMagnitude = F32.inf false ∧
    (AAcceleratedForceApplier.ApplyPhysicsForce (fun _ => F32.finite 1) (F32.finite 10)
        { AAcceleratedForceApplier.construct with
          ForceDirection := FVector.ZeroVector
          ForceMagnitude := F32.finite (2 ^ 126) }).2
      = ForceCall.AddForce ⟨F32.nan, F32.nan, F32.nan⟩ := by
  have r1 : round32 (2 ^ 126) = F32.finite (2 ^ 126) :=
    round32_of_pos _ _ 126 103 8388608 (by norm_num) (by norm_num) (by decide)
      (roundHalfEven_of_near _ _ (by norm_num) (by norm_num)) (by norm_num) (by norm_num)
      (by norm_num [maxFinite])
  have r2 : round32 10 = F32.finite 10 :=
    round32_of_pos _ _ 3 (-20) 10485760 (by norm_num) (by norm_num) (by decide)
      (roundHalfEven_of_near _ _ (by norm_num) (by norm_num)) (by norm_num) (by norm_num)
      (by norm_num [maxFinite])
  have hmul : (F32.finite (2 ^ 126)).mul (F32.finite 10) = F32.inf false :=
    round32_overflow _ (10485760 * 2 ^ 106) 129 106 10485760 (by norm_num) (by norm_num)
      (by decide) (roundHalfEven_of_near _ _ (by norm_num) (by norm_num)) (by norm_num)
      (by norm_num [maxFinite])
  have hadd : (F32.finite 0).add (F32.inf false) = F32.inf false := rfl
  have hclamp : Clamp (F32.inf false) (F32.finite 0) (F32.inf false) = F32.inf false := by
    simp [Clamp, F32.lt]
  have hscale : FVector.ZeroVector.scale (F32.inf false) = ⟨F32.nan, F32.nan, F32.nan⟩ := by
    simp [FVector.scale, FVector.ZeroVector, F32.mul]
  rw [AAcceleratedForceApplier.ApplyPhysicsForce_continuous_binary32 _ _ _ rfl]
  simp only [AAcceleratedForceApplier.construct, hmul, hadd, hclamp,
    GetSafeNormal_zero_binary32, hscale]
  exact ⟨r1, r2, trivial, trivial⟩

/-- C8, amended: in binary32 `GetSafeNormal` of the zero vector is the zero vector for
every reciprocal square root, and with a zero-length direction the vector a step emits is
the zero vector whenever the scalar it is multiplied by is finite: in `InstantImpulse`
and `TorqueForce` mode for a finite magnitude, in `ContinuousForce` mode when
`ForceMagnitude * 10` is finite (then the updated `CurrentForceMagnitude` is finite for
every elapsed time and every stored magnitude), and in the three `ATorqueApplier` modes
for finite magnitude, damping factor and angular velocity.  In `ContinuousForce` mode
with a non-finite updated magnitude nothing is stated. -/
theorem zero_direction_emits_zero_if_finite (invSqrt : F32 → F32) (dt : F32)
    (f : AAcceleratedForceApplier) (t : ATorqueApplier) (m c d wx wy wz : ℚ) :
    FVector.GetSafeNormal invSqrt FVector.ZeroVector = FVector.ZeroVector ∧
    (f.ForceDirection = FVector.ZeroVector → f.ForceMode = EForceMode.InstantImpulse →
      f.ForceMagnitude = F32.finite m →
      (AAcceleratedForceApplier.ApplyPhysicsForce invSqrt dt f).2.vector = FVector.ZeroVector) ∧
    (f.TorqueAxis = FVector.ZeroVector → f.ForceMode = EForceMode.TorqueForce →
      f.TorqueMagnitude = F32.finite m →
      (AAcceleratedForceApplier.ApplyPhysicsForce invSqrt dt f).2.vector = FVector.ZeroVector) ∧
    (f.ForceDirection = FVector.ZeroVector → f.ForceMode = EForceMode.ContinuousForce →
      f.ForceMagnitude.mul (F32.finite 10) = F32.finite c →
      (AAcceleratedForceApplier.ApplyPhysicsForce invSqrt dt f).2.vector = FVector.ZeroVector) ∧
    (f.ForceDirection = FVector.ZeroVector → f.ForceMode = EForceMode.ContinuousForce →
      ∀ q : ℚ, (AAcceleratedForceApplier.ApplyPhysicsForce invSqrt dt f).1.CurrentForceMagnitude
          = F32.finite q →
        (AAcceleratedForceApplier.ApplyPhysicsForce invSqrt dt f).2.vector
          = FVector.ZeroVector) ∧
    (t.TorqueAxis = FVector.ZeroVector → t.TorqueMagnitude = F32.finite m →
      t.DampingFactor = F32.finite d →
      ∀ call : TorqueCall,
        (ATorqueApplier.ApplyTorque invSqrt dt ⟨F32.finite wx, F32.finite wy, F32.finite wz⟩ t).2
          = some call →
        call.vector = FVector.ZeroVector) := by
  have hn := GetSafeNormal_zero_binary32 invSqrt
  refine ⟨hn, ?_, ?_, ?_, ?_, ?_⟩
  · intro hdir hmode hmag
    unfold AAcceleratedForceApplier.ApplyPhysicsForce
    simp only [hmode, hdir, hn, hmag, scale_zero_finite, ForceCall.vector]
  · intro hax hmode hmag
    unfold AAcceleratedForceApplier.ApplyPhysicsForce
    simp only [hmode, hax, hn, hmag, scale_zero_finite, ForceCall.vector]
  · intro hdir hmode hcap
    rw [AAcceleratedForceApplier.ApplyPhysicsForce_continuous_binary32 invSqrt dt f hmode,
      hcap, hdir, hn]
    obtain ⟨q, hq⟩ := Clamp_finite_bounds
      (f.CurrentForceMagnitude.add (f.ForceMagnitude.mul dt)) 0 c
    simp only [hq, scale_zero_finite, ForceCall.vector]
  · intro hdir hmode q hq
    rw [AAcceleratedForceApplier.ApplyPhysicsForce_continuous_binary32 invSqrt dt f hmode] at hq ⊢
    simp only at hq
    simp only [hdir, hn, hq, scale_zero_finite, ForceCall.vector]
  · intro hax hmag hdamp call hcall
    have hneg : FVector.ZeroVector.neg = FVector.ZeroVector := by
      simp [FVector.neg, FVector.ZeroVector, F32.neg]
    have hdot : FVector.DotProduct ⟨F32.finite wx, F32.finite wy, F32.finite wz⟩
        FVector.ZeroVector = F32.finite 0 := by
      simp only [FVector.DotProduct, FVector.ZeroVector, mul_finite_zero, add_zero_zero]
    have hadd : FVector.ZeroVector.add FVector.ZeroVector = FVector.ZeroVector := by
      simp only [FVector.add, FVector.ZeroVector, add_zero_zero]
    unfold ATorqueApplier.ApplyTorque at hcall
    rw [hax, hn, hmag, hdamp] at hcall
    simp only [scale_zero_finite, hneg, hdot, hadd] at hcall
    cases hm : t.TorqueMode
    · simp only [hm, Option.some.injEq] at hcall
      rw [← hcall]; rfl
    · by_cases hb : t.bImpulseApplied = true
      · simp [hm, hb] at hcall
      · simp only [hm, hb] at hcall
        simp at hcall
        rw [← hcall]; rfl
    · simp only [hm, Option.some.injEq] at hcall
      rw [← hcall]; rfl

/-- The constructed force actor with a zero direction, stepped by one second in
`ContinuousForce` mode (`1000 * 10` is finite), and the constructed torque actor with a
zero axis in `DampedTorque` mode at angular velocity `(1, 2, 3)`: both emit the zero
vector. -/
theorem zero_direction_emits_zero_if_finite_witness :
    (AAcceleratedForceApplier.ApplyPhysicsForce (fun _ => F32.finite 1) (F32.finite 1)
        { AAcceleratedForceApplier.construct with
          ForceDirection := FVector.ZeroVector }).2.vector = FVector.ZeroVector ∧
    (∀ call : TorqueCall,
      (ATorqueApplier.ApplyTorque (fun _ => F32.finite 1) (F32.finite 1)
        ⟨F32.finite 1, F32.finite 2, F32.finite 3⟩
        { ATorqueApplier.construct with
          TorqueAxis := FVector.ZeroVector
          TorqueMode := ETorqueApplicationMode.DampedTorque }).2 = some call →
      call.vector = FVector.ZeroVector) := by
  have h := zero_direction_emits_zero_if_finite (fun _ => F32.finite 1) (F32.finite 1)
    { AAcceleratedForceApplier.construct with ForceDirection := FVector.ZeroVector }
    { ATorqueApplier.construct with
      TorqueAxis := FVector.ZeroVector
      TorqueMode := ETorqueApplicationMode.DampedTorque } 1000 10000 1 1 2 3
  have hcap : (F32.finite 1000).mul (F32.finite 10) = F32.finite 10000 :=
    round32_of_pos _ _ 13 (-10) 10240000 (by norm_num) (by norm_num) (by decide)
      (roundHalfEven_of_near _ _ (by norm_num) (by norm_num)) (by norm_num) (by norm_num)
      (by norm_num [maxFinite])
  exact ⟨h.2.2.2.1 rfl rfl hcap, h.2.2.2.2.2 rfl rfl rfl⟩

theorem FloorToInt_of_floor (x : ℚ) (k : Int) (hlo : (k : ℚ) ≤ x) (hhi : x < (k : ℚ) + 1)
    (h0 : 0 ≤ k) (h5 : k ≤ 5) : FloorToInt (F32.finite x) = k := by
  have hf : Int.floor x = k := by
    rw [Int.floor_eq_iff]; exact ⟨hlo, hhi⟩
  show UnrealForge.FloorToInt x = k
  unfold UnrealForge.FloorToInt INT_MIN INT_MAX
  rw [hf, if_pos (by constructor <;> omega)]

theorem FInterpTo_blend (Current Target DeltaTime InterpSpeed : F32)
    (h1 : InterpSpeed.le (F32.finite 0) = false)
    (h2 : (Square (Target.sub Current)).lt SMALL_NUMBER = false) :
    FInterpTo Current Target DeltaTime InterpSpeed =
      Current.add ((Target.sub Current).mul
        (Clamp (DeltaTime.mul InterpSpeed) (F32.finite 0) (F32.finite 1))) := by
  unfold FInterpTo
  simp only [h1, h2, Bool.false_eq_true, if_false]

namespace AAcceleratingTutorialThreshold

theorem Tick_fixed_point (dt : F32) (s : AAcceleratingTutorialThreshold)
    (hs : s.CurrentInterpSpeed.add (s.InterpAcceleration.mul dt) = s.CurrentInterpSpeed)
    (hT : FInterpTo s.Threshold (F32.finite 1) dt s.CurrentInterpSpeed = s.Threshold)
    (hp : EPhase.ofIndex (PhaseIndex s.Threshold) = s.CurrentPhase)
    (hprev : s.PreviousPhase = s.CurrentPhase) : (Tick dt s).1 = s := by
  unfold Tick UpdatePhase
  simp only [hs, hT, hp, hprev, ne_eq, not_true_eq_false, if_false]
  cases s
  simp only at hprev
  simp only [hprev]

theorem TickN_fixed (dt : F32) (s : AAcceleratingTutorialThreshold) (h : (Tick dt s).1 = s) :
    ∀ n : Nat, TickN dt n s = s := by
  intro n
  induction n with
  | zero => rfl
  | succ n ih =>
    show (Tick dt (TickN dt n s)).1 = s
    rw [ih, h]

theorem round32_slow : round32 (1 / 2 ^ 100) = F32.finite (1 / 2 ^ 100) :=
  round32_of_pos _ _ (-100) (-123) 8388608 (by norm_num) (by norm_num) (by decide)
    (roundHalfEven_of_near _ _ (by norm_num) (by norm_num)) (by norm_num) (by norm_num)
    (by norm_num [maxFinite])

theorem Tick_slowStart : (Tick (F32.finite (1 / 2 ^ 100)) slowStart).1 = slowStart := by
  have hdist : (F32.finite 1).sub (F32.finite 0) = F32.finite 1 := by
    show round32 (1 + -0) = _
    rw [neg_zero, add_zero]; exact round32_one
  have hsq : Square (F32.finite 1) = F32.finite 1 := by
    show round32 (1 * 1) = _
    rw [mul_one]; exact round32_one
  have halpha : (F32.finite (1 / 2 ^ 100)).mul (F32.finite (1 / 2 ^ 100)) = F32.finite 0 :=
    round32_of_pos _ _ (-200) (-149) 0 (by norm_num) (by norm_num) (by decide)
      (roundHalfEven_of_near _ _ (by norm_num) (by norm_num)) (by norm_num) (by norm_num)
      (by norm_num [maxFinite])
  have hclamp : Clamp (F32.finite 0) (F32.finite 0) (F32.finite 1) = F32.finite 0 := by
    simp only [Clamp, F32.lt, decide_eq_true_eq]; norm_num
  have hle : (F32.finite (1 / 2 ^ 100)).le (F32.finite 0) = false := by
    simp only [F32.le, decide_eq_false_iff_not]; norm_num
  have hlt : (Square ((F32.finite 1).sub (F32.finite 0))).lt SMALL_NUMBER = false := by
    rw [hdist, hsq, SMALL_NUMBER_value]
    simp only [F32.lt, decide_eq_false_iff_not]; norm_num
  apply Tick_fixed_point
  · show (F32.finite (1 / 2 ^ 100)).add ((F32.finite 0).mul (F32.finite (1 / 2 ^ 100)))
      = F32.finite (1 / 2 ^ 100)
    rw [mul_zero_finite]
    show round32 (1 / 2 ^ 100 + 0) = _
    rw [add_zero]; exact round32_slow
  · show FInterpTo (F32.finite 0) (F32.finite 1) (F32.finite (1 / 2 ^ 100))
      (F32.finite (1 / 2 ^ 100)) = F32.finite 0
    rw [FInterpTo_blend _ _ _ _ hle hlt, hdist, halpha, hclamp, mul_finite_zero,
      add_zero_zero]
  · show EPhase.ofIndex (PhaseIndex (F32.finite 0)) = EPhase.Phase_0
    unfold PhaseIndex
    rw [mul_zero_finite, FloorToInt_of_floor 0 0 (by norm_num) (by norm_num) (by norm_num)
      (by norm_num)]
    rfl
  · rfl

theorem Tick_nearOne :
    (Tick (F32.finite (8947849 / 536870912)) nearOne).1 = nearOne := by
  have hdist : (F32.finite 1).sub (F32.finite (2096777 / 2097152))
      = F32.finite (375 / 2097152) :=
    round32_of_pos _ _ (-13) (-36) 12288000 (by norm_num) (by norm_num) (by decide)
      (roundHalfEven_of_near _ _ (by norm_num) (by norm_num)) (by norm_num) (by norm_num)
      (by norm_num [maxFinite])
  have hsq : Square (F32.finite (375 / 2097152)) = F32.finite (140625 / 4398046511104) :=
    round32_of_pos _ _ (-25) (-48) 9000000 (by norm_num) (by norm_num) (by decide)
      (roundHalfEven_of_near _ _ (by norm_num) (by norm_num)) (by norm_num) (by norm_num)
      (by norm_num [maxFinite])
  have halpha : (F32.finite (8947849 / 536870912)).mul (F32.finite (5368709 / 536870912))
      = F32.finite (5726623 / 34359738368) :=
    round32_of_pos _ _ (-13) (-36) 11453246 (by norm_num) (by norm_num) (by decide)
      (roundHalfEven_of_near _ _ (by norm_num) (by norm_num)) (by norm_num) (by norm_num)
      (by norm_num [maxFinite])
  have hclamp : Clamp (F32.finite (5726623 / 34359738368)) (F32.finite 0) (F32.finite 1)
      = F32.finite (5726623 / 34359738368) := by
    simp only [Clamp, F32.lt, decide_eq_true_eq]; norm_num
  have hmove : (F32.finite (375 / 2097152)).mul (F32.finite (5726623 / 34359738368))
      = F32.finite (1 / 33554432) :=
    round32_of_pos _ _ (-26) (-49) 16777216 (by norm_num) (by norm_num) (by decide)
      (roundHalfEven_of_near _ _ (by norm_num) (by norm_num)) (by norm_num) (by norm_num)
      (by norm_num [maxFinite])
  have hsum : (F32.finite (2096777 / 2097152)).add (F32.finite (1 / 33554432))
      = F32.finite (2096777 / 2097152) :=
    round32_of_pos _ _ (-1) (-24) 16774216 (by norm_num) (by norm_num) (by decide)
      (roundHalfEven_of_tie _ _ (by decide) (by norm_num)) (by norm_num) (by norm_num)
      (by norm_num [maxFinite])
  have hle : (F32.finite (5368709 / 536870912)).le (F32.finite 0) = false := by
    simp only [F32.le, decide_eq_false_iff_not]; norm_num
  have hlt : (Square ((F32.finite 1).sub (F32.finite (2096777 / 2097152)))).lt SMALL_NUMBER
      = false := by
    rw [hdist, hsq, SMALL_NUMBER_value]
    simp only [F32.lt, decide_eq_false_iff_not]; norm_num
  apply Tick_fixed_point
  · show (F32.finite (5368709 / 536870912)).add
        ((F32.finite 0).mul (F32.finite (8947849 / 536870912)))
      = F32.finite (5368709 / 536870912)
    rw [mul_zero_finite]
    exact round32_of_pos _ _ (-7) (-30) 10737418 (by norm_num) (by norm_num) (by decide)
      (roundHalfEven_of_near _ _ (by norm_num) (by norm_num)) (by norm_num) (by norm_num)
      (by norm_num [maxFinite])
  · show FInterpTo (F32.finite (2096777 / 2097152)) (F32.finite 1)
      (F32.finite (8947849 / 536870912)) (F32.finite (5368709 / 536870912))
      = F32.finite (2096777 / 2097152)
    rw [FInterpTo_blend _ _ _ _ hle hlt, hdist, halpha, hclamp, hmove, hsum]
  · show EPhase.ofIndex (PhaseIndex (F32.finite (2096777 / 2097152))) = EPhase.Phase_4
    have hmul : (F32.finite (2096777 / 2097152)).mul (F32.finite 5)
        = F32.finite (10483885 / 2097152) :=
      round32_of_pos _ _ 2 (-21) 10483885 (by norm_num) (by norm_num) (by decide)
        (roundHalfEven_of_near _ _ (by norm_num) (by norm_num)) (by norm_num) (by norm_num)
        (by norm_num [maxFinite])
    unfold PhaseIndex
    rw [hmul, FloorToInt_of_floor _ 4 (by norm_num) (by norm_num) (by norm_num)
      (by norm_num)]
    rfl
  · rfl

/-- C7, as stated, fails in binary32.  From `Threshold = 0` with speed `2^-100`, no
acceleration and `dt = 2^-100` (all positive), `dt * speed` underflows to `0`, a `Tick`
changes nothing and the threshold stays `0` for ever.  With ordinary values, speed
`0.01f`, no acceleration and `dt = (1/60)f`, the state at `Threshold = 2096777 / 2^21`
(about `0.99982119`, below `1`) is also left unchanged by `Tick`: the increment is half a
unit in the last place and the sum rounds back, so the threshold never reaches `1.0`. -/
theorem threshold_stalls_below_one :
    slowStart.Threshold = F32.finite 0 ∧
    round32 (1 / 2 ^ 100) = F32.finite (1 / 2 ^ 100) ∧
    (Tick (F32.finite (1 / 2 ^ 100)) slowStart).1 = slowStart ∧
    (∀ n : Nat, (TickN (F32.finite (1 / 2 ^ 100)) n slowStart).Threshold = F32.finite 0) ∧
    round32 (1 / 100) = F32.finite (5368709 / 536870912) ∧
    round32 (1 / 60) = F32.finite (8947849 / 536870912) ∧
    round32 (2096777 / 2097152) = F32.finite (2096777 / 2097152) ∧
    (Tick (F32.finite (8947849 / 536870912)) nearOne).1 = nearOne ∧
    (∀ n : Nat, (TickN (F32.finite (8947849 / 536870912)) n nearOne).Threshold
      = F32.finite (2096777 / 2097152)) ∧
    (2096777 / 2097152 : ℚ) < 1 := by
  have h1 : round32 (1 / 100) = F32.finite (5368709 / 536870912) :=
    round32_of_pos _ _ (-7) (-30) 10737418 (by norm_num) (by norm_num) (by decide)
      (roundHalfEven_of_near _ _ (by norm_num) (by norm_num)) (by norm_num) (by norm_num)
      (by norm_num [maxFinite])
  have h2 : round32 (1 / 60) = F32.finite (8947849 / 536870912) :=
    round32_of_pos _ _ (-6) (-29) 8947849 (by norm_num) (by norm_num) (by decide)
      (roundHalfEven_of_near _ _ (by norm_num) (by norm_num)) (by norm_num) (by norm_num)
      (by norm_num [maxFinite])
  have h3 : round32 (2096777 / 2097152) = F32.finite (2096777 / 2097152) :=
    round32_of_pos _ _ (-1) (-24) 16774216 (by norm_num) (by norm_num) (by decide)
      (roundHalfEven_of_near _ _ (by norm_num) (by norm_num)) (by norm_num) (by norm_num)
      (by norm_num [maxFinite])
  refine ⟨rfl, round32_slow, Tick_slowStart, ?_, h1, h2, h3, Tick_nearOne, ?_, by norm_num⟩
  · intro n
    rw [TickN_fixed _ _ Tick_slowStart n]; rfl
  · intro n
    rw [TickN_fixed _ _ Tick_nearOne n]; rfl

end AAcceleratingTutorialThreshold

end Binary32

end UnrealForge
